/-
  Verification of the clangaroo MCP/clangd bridge (Python) against its
  natural-language specification.

  Shallow embedding: the Python functions named in the claims are translated
  into executable Lean definitions (dictionaries become association lists,
  asynchronous I/O becomes explicit state passing or oracle functions for the
  responses of external processes, exceptions become Except/Option).  Each
  definition's doc comment names the source function and lines it embeds.
-/
import Mathlib

set_option maxHeartbeats 1000000

/-! ## Python runtime value model

MCP tool arguments arrive as JSON values deserialized by Python's json
module into str / int / bool / None / list / dict objects.  PyVal models
that runtime universe.  A crucial point of fidelity: in Python, bool is a
subclass of int, so isinstance(True, int) is True and True compares equal
to 1; the model keeps bool as a separate constructor and encodes the
subclass behaviour in the isinstance / numeric-value functions below. -/

inductive PyVal where
  | str (s : String)
  | int (i : Int)
  | bool (b : Bool)
  | none
  | dict (kvs : List (String × PyVal))

/-- Arguments dictionary of a tools/call request: a Python dict with string
keys, modelled as an insertion-ordered association list. -/
abbrev Args := List (String × PyVal)

/-- Model of Python dict lookup d[k] / d.get(k): first binding wins. -/
def dictGet (args : Args) (k : String) : Option PyVal :=
  (args.find? (fun kv => kv.1 = k)).map (fun kv => kv.2)

/-- Model of Python dict.get(k, default). -/
def dictGetD (args : Args) (k : String) (d : PyVal) : PyVal :=
  (dictGet args k).getD d

/-! ## Claim C1: default of group_by_pattern across the two protocol implementations

Sources: src/mcp_clangd/server.py lines 596-603 (monolithic server dispatch),
src/mcp_clangd/session.py lines 506-517 (daemon client session dispatch),
and the two tool catalogs: server.py line 387 declares default True for
group_by_pattern, session.py line 289 declares default False. -/

/-- Embeds server.py line 599, the cpp_incoming_calls branch of
MCPClangdServer._execute_tool: group_by_pattern = arguments.get("group_by_pattern", True). -/
def serverIncomingGroupByPattern (arguments : Args) : PyVal :=
  dictGetD arguments "group_by_pattern" (.bool true)

/-- Embeds session.py line 512, the cpp_incoming_calls branch of
ClientSession._execute_tool: group_by_pattern = arguments.get("group_by_pattern", False). -/
def sessionIncomingGroupByPattern (arguments : Args) : PyVal :=
  dictGetD arguments "group_by_pattern" (.bool false)

/-- Embeds server.py line 387: the monolithic server's tools/list schema entry
for cpp_incoming_calls declares "default": True for group_by_pattern. -/
def serverCatalogGroupByPatternDefault : Bool := true

/-- Embeds session.py line 289: the daemon session's tools/list schema entry
for cpp_incoming_calls declares "default": False for group_by_pattern. -/
def sessionCatalogGroupByPatternDefault : Bool := false

/-- Claim C1, as stated, is false: for a tools/call invocation of
cpp_incoming_calls that omits group_by_pattern (here: the empty arguments
dictionary), the daemon client session executes the tool with
group_by_pattern = False, not the True default the claim asserts for both
implementations. -/
theorem C1_counterexample :
    sessionIncomingGroupByPattern [] = .bool false ∧
    sessionIncomingGroupByPattern [] ≠ .bool true := by
  constructor
  · rfl
  · intro h
    simp [sessionIncomingGroupByPattern, dictGetD, dictGet] at h

/-- Claim C1 amended: when group_by_pattern is omitted, the monolithic server
executes cpp_incoming_calls with group_by_pattern = True and the daemon client
session executes it with group_by_pattern = False; each implementation matches
the default its own tool catalog declares (True in server.py, False in
session.py), but the two catalogs do not agree. -/
theorem C1_amended (arguments : Args)
    (h : dictGet arguments "group_by_pattern" = Option.none) :
    serverIncomingGroupByPattern arguments = .bool serverCatalogGroupByPatternDefault ∧
    sessionIncomingGroupByPattern arguments = .bool sessionCatalogGroupByPatternDefault ∧
    serverCatalogGroupByPatternDefault ≠ sessionCatalogGroupByPatternDefault := by
  refine ⟨?_, ?_, by decide⟩
  · simp [serverIncomingGroupByPattern, dictGetD, h, serverCatalogGroupByPatternDefault]
  · simp [sessionIncomingGroupByPattern, dictGetD, h, sessionCatalogGroupByPatternDefault]

/-- Witness for C1_amended at the concrete empty arguments dictionary. -/
theorem C1_amended_witness :
    serverIncomingGroupByPattern [] = .bool serverCatalogGroupByPatternDefault ∧
    sessionIncomingGroupByPattern [] = .bool sessionCatalogGroupByPatternDefault ∧
    serverCatalogGroupByPatternDefault ≠ sessionCatalogGroupByPatternDefault :=
  C1_amended [] rfl

/-! ## Claim C9: the should_summarize gating rule

Source: src/mcp_clangd/llm_provider.py lines 181-207
(LLMProvider.should_summarize) and lines 13-25 (ContextData). -/

/-- Model of Python str.isspace for the characters str.strip removes; covers
the ASCII whitespace characters (space, tab, newline, carriage return,
vertical tab, form feed).  Python also strips some further Unicode
whitespace; none of the claims depends on those. -/
def pyIsSpace (c : Char) : Bool :=
  c = ' ' || c = '\t' || c = '\n' || c = '\r' || c.toNat = 11 || c.toNat = 12

/-- Model of Python str.strip(): remove leading and trailing whitespace. -/
def pyStrip (s : String) : String :=
  String.mk (((s.data.dropWhile pyIsSpace).reverse.dropWhile pyIsSpace).reverse)

/-- Split of a character list at every occurrence of a separator character
(Python str.split with a one-character separator; always nonempty). -/
def splitOnChar (sep : Char) : List Char → List (List Char)
  | [] => [[]]
  | c :: rest =>
    if c = sep then [] :: splitOnChar sep rest
    else
      match splitOnChar sep rest with
      | t :: ts => (c :: t) :: ts
      | [] => [[c]]

/-- Model of Python s.split(sep) for a one-character separator. -/
def pySplitChar (s : String) (sep : Char) : List String :=
  (splitOnChar sep s.data).map String.mk

/-- Model of Python content.split('\n')[0]: the first line of a string
(split always yields at least one element, so indexing 0 is total). -/
def pyFirstLine (s : String) : String :=
  (pySplitChar s '\n').headD ""

/-- Embeds llm_provider.py lines 14-25: the ContextData record.  The optional
fields (surrounding code, class context, function signature, related headers,
imports) default to None and are not read by should_summarize, so they are
omitted from the model. -/
structure ContextData where
  primary_content : String
  symbol_name : String
  symbol_kind : String
  context_level : String
  source : String

/-- Embeds llm_provider.py lines 181-207, LLMProvider.should_summarize:
skip if the stripped content is under 100 characters; skip for symbol kinds
getter/setter/destructor; always summarize template/macro kinds; skip content
that already starts with a short @brief line (first line under 80 characters);
otherwise summarize. -/
def should_summarize (context_data : ContextData) : Bool :=
  if (pyStrip context_data.primary_content).length < 100 then false
  else if context_data.symbol_kind ∈ ["getter", "setter", "destructor"] then false
  else if context_data.symbol_kind ∈ ["template", "macro"] then true
  else if context_data.primary_content.startsWith "@brief" ∧
          (pyFirstLine context_data.primary_content).length < 80 then false
  else true

/-- Modelled from the spec's words (the reference predicate of claim C9):
returns false if the stripped primary content is shorter than 100 characters;
otherwise false if the symbol kind is getter, setter, or destructor; otherwise
true if the symbol kind is template or macro; otherwise false if the primary
content starts with "@brief" and its first line is shorter than 80 characters;
otherwise true. -/
def specShouldSummarize (context_data : ContextData) : Bool :=
  if (pyStrip context_data.primary_content).length < 100 then false
  else if context_data.symbol_kind = "getter" ∨ context_data.symbol_kind = "setter" ∨
          context_data.symbol_kind = "destructor" then false
  else if context_data.symbol_kind = "template" ∨ context_data.symbol_kind = "macro" then true
  else if context_data.primary_content.startsWith "@brief" ∧
          (pyFirstLine context_data.primary_content).length < 80 then false
  else true

/-- Claim C9: for every context record, should_summarize agrees with the
reference predicate stated in the specification. -/
theorem C9_should_summarize_eq_spec (context_data : ContextData) :
    should_summarize context_data = specShouldSummarize context_data := by
  unfold should_summarize specShouldSummarize
  simp only [List.mem_cons, List.mem_singleton, List.not_mem_nil, or_false]

/-! ## Claim C10: JSON booleans pass the positive-integer argument check

Sources: src/mcp_clangd/server.py lines 522-561
(MCPClangdServer._validate_tool_arguments, position-based branch) and
src/mcp_clangd/session.py lines 428-464 (ClientSession._validate_tool_arguments,
position-based branch); execution coordinates flow into LSPMethods
(lsp_methods.py, e.g. line 301: position line - 1 / column - 1). -/

/-- Model of Python isinstance(x, str). -/
def isinstanceStr : PyVal → Bool
  | .str _ => true
  | _ => false

/-- Model of Python isinstance(x, int): bool is a subclass of int in Python,
so booleans satisfy the check. -/
def isinstanceInt : PyVal → Bool
  | .int _ => true
  | .bool _ => true
  | _ => false

/-- Numeric value a PyVal carries in Python integer comparisons and
arithmetic: True behaves as 1 and False as 0.  Only int and bool values reach
the comparisons in the validators (guarded by isinstanceInt); the other
constructors are given value 0 to keep the function total. -/
def pyIntValue : PyVal → Int
  | .int i => i
  | .bool b => if b then 1 else 0
  | _ => 0

/-- Embeds the shared position-based validation of server.py lines 522-539 and
session.py lines 428-445: require the file/line/column fields, require file to
be a str, and require line and column to satisfy isinstance(v, int) and
not (v < 1).  The subsequent filesystem part (resolve the path, require it to
exist inside the project root; server.py lines 541-561, session.py lines
447-464) is abstracted by the resolveFile oracle, which returns the resolved
path or None exactly when the Python block raises. -/
def validatePositionArgs (resolveFile : String → Option String) (arguments : Args) :
    Except String Unit :=
  match dictGet arguments "file" with
  | Option.none => .error "Missing required argument: file"
  | some fileV =>
    match dictGet arguments "line" with
    | Option.none => .error "Missing required argument: line"
    | some lineV =>
      match dictGet arguments "column" with
      | Option.none => .error "Missing required argument: column"
      | some colV =>
        if ¬ isinstanceStr fileV then .error "file must be a string"
        else if ¬ isinstanceInt lineV ∨ pyIntValue lineV < 1 then
          .error "line must be a positive integer"
        else if ¬ isinstanceInt colV ∨ pyIntValue colV < 1 then
          .error "column must be a positive integer"
        else
          match fileV with
          | .str f =>
            match resolveFile f with
            | some _ => .ok ()
            | Option.none => .error "Invalid file path"
          | _ => .error "file must be a string"

/-- Zero-based line position handed to clangd for a position argument, from
lsp_methods.py line 301: position line - 1 (Python arithmetic, in which the
boolean True is the integer 1). -/
def lspZeroBasedCoordinate (v : PyVal) : Int :=
  pyIntValue v - 1

/-- Claim C10: an arguments dictionary whose line value is the JSON boolean
true (with a valid file and column) passes the position-based argument
validation shared by the monolithic server and the daemon client session
rather than being rejected, because isinstance(True, int) holds and True is
not less than 1; the request is then executed with the coordinate treated as
1 (clangd receives the zero-based position 0). -/
theorem C10_bool_passes_validation
    (resolveFile : String → Option String) (f r : String) (c : Int)
    (hres : resolveFile f = some r) (hc : 1 ≤ c) :
    validatePositionArgs resolveFile
      [("file", .str f), ("line", .bool true), ("column", .int c)] = .ok () ∧
    isinstanceInt (.bool true) = true ∧
    ¬ pyIntValue (.bool true) < 1 ∧
    pyIntValue (.bool true) = 1 ∧
    lspZeroBasedCoordinate (.bool true) = 0 := by
  refine ⟨?_, rfl, by decide, rfl, rfl⟩
  have step : validatePositionArgs resolveFile
      [("file", .str f), ("line", .bool true), ("column", .int c)] =
      if ¬ isinstanceInt (.int c) = true ∨ pyIntValue (.int c) < 1 then
        Except.error "column must be a positive integer"
      else
        match resolveFile f with
        | some _ => Except.ok ()
        | Option.none => Except.error "Invalid file path" := rfl
  rw [step, if_neg (by simp [isinstanceInt, pyIntValue]; omega), hres]

/-- Witness for C10 at a concrete resolver, file and column. -/
theorem C10_bool_passes_validation_witness :
    validatePositionArgs (fun s => some s)
      [("file", .str "src/main.cpp"), ("line", .bool true), ("column", .int 5)] = .ok () ∧
    isinstanceInt (.bool true) = true ∧
    ¬ pyIntValue (.bool true) < 1 ∧
    pyIntValue (.bool true) = 1 ∧
    lspZeroBasedCoordinate (.bool true) = 0 :=
  C10_bool_passes_validation (fun s => some s) "src/main.cpp" "src/main.cpp" 5 rfl (by decide)

/-! ## Claim C6: get_or_compute caching and error eviction

Source: src/mcp_clangd/backend.py lines 172-199 (Backend.get_or_compute).
The computation table maps cache keys to asyncio futures; on success the
future stays in the table resolved with the result, on error the future is
evicted.  The claim concerns sequential behaviour (a call and subsequent
calls with the same key), so the futures in the table are modelled by their
resolved values and the compute coroutine by the outcome it would produce
(Except: ok result or error). -/

/-- Computation table of Backend: cache key to resolved stored result. -/
abbrev CompTable (V : Type) := List (String × V)

/-- Lookup in the computation table (Python: cache_key in self._computation_cache
followed by self._computation_cache[cache_key]). -/
def compLookup {V : Type} (table : CompTable V) (key : String) : Option V :=
  (table.find? (fun kv => kv.1 = key)).map (fun kv => kv.2)

/-- Outcome of one get_or_compute call: the value returned or the error
re-raised to the caller, the table afterwards, and whether compute_func
was invoked. -/
structure GocOutcome (E V : Type) where
  result : Except E V
  table : CompTable V
  invoked : Bool

/-- Embeds backend.py lines 172-199, Backend.get_or_compute, sequentially:
if a future already exists for the key, await it and return its stored result
without invoking compute_func; otherwise install a fresh future, run
compute_func, resolve the future with the result (success: the future stays
in the table) or with the error (the failed future is deleted from the
table), and return by awaiting the future, which re-raises an error
outcome. -/
def get_or_compute {E V : Type} (table : CompTable V) (key : String)
    (compute : Except E V) : GocOutcome E V :=
  match compLookup table key with
  | some v => ⟨.ok v, table, false⟩
  | Option.none =>
    match compute with
    | .ok v => ⟨.ok v, table ++ [(key, v)], true⟩
    | .error e => ⟨.error e, table, true⟩

/-- Claim C6: for a key not yet in the computation table, a failing compute
re-raises the error and leaves the key unmapped, so a subsequent call with
that key invokes its compute function again; a successful compute leaves
the key mapped to the result, and every subsequent call with that key
returns the stored result without invoking its compute function (the table
is unchanged by such hits, so this holds for all subsequent calls). -/
theorem C6_get_or_compute (E V : Type) (table : CompTable V) (key : String)
    (h : compLookup table key = Option.none) (e : E) (v : V) :
    (let r : GocOutcome E V := get_or_compute table key (.error e)
     r.result = .error e ∧ r.invoked = true ∧
     compLookup r.table key = Option.none ∧
     ∀ compute2 : Except E V, (get_or_compute r.table key compute2).invoked = true) ∧
    (let r : GocOutcome E V := get_or_compute table key (.ok v)
     r.result = .ok v ∧ r.invoked = true ∧
     compLookup r.table key = some v ∧
     ∀ compute2 : Except E V,
       (get_or_compute r.table key compute2).result = .ok v ∧
       (get_or_compute r.table key compute2).invoked = false ∧
       (get_or_compute r.table key compute2).table = r.table) := by
  have hfind : table.find? (fun kv => kv.1 = key) = Option.none := by
    unfold compLookup at h
    cases hf : table.find? (fun kv => kv.1 = key) with
    | none => rfl
    | some kv => rw [hf] at h; simp at h
  constructor
  · refine ⟨?_, ?_, ?_, ?_⟩
    · simp [get_or_compute, h]
    · simp [get_or_compute, h]
    · simp [get_or_compute, h]
    · intro compute2
      cases compute2 <;> simp [get_or_compute, h]
  · have hlook : compLookup (table ++ [(key, v)]) key = some v := by
      unfold compLookup
      rw [List.find?_append, hfind]
      simp
    refine ⟨?_, ?_, ?_, ?_⟩
    · simp [get_or_compute, h]
    · simp [get_or_compute, h]
    · simp [get_or_compute, h, hlook]
    · intro compute2
      refine ⟨?_, ?_, ?_⟩ <;> simp [get_or_compute, h, hlook]

/-- Witness for C6 at a concrete empty table, key, error and value. -/
theorem C6_get_or_compute_witness :
    (let r : GocOutcome String Int := get_or_compute ([] : CompTable Int) "files:*" (.error "boom")
     r.result = .error "boom" ∧ r.invoked = true ∧
     compLookup r.table "files:*" = Option.none ∧
     ∀ compute2 : Except String Int, (get_or_compute r.table "files:*" compute2).invoked = true) ∧
    (let r : GocOutcome String Int := get_or_compute ([] : CompTable Int) "files:*" (.ok 42)
     r.result = .ok 42 ∧ r.invoked = true ∧
     compLookup r.table "files:*" = some 42 ∧
     ∀ compute2 : Except String Int,
       (get_or_compute r.table "files:*" compute2).result = .ok 42 ∧
       (get_or_compute r.table "files:*" compute2).invoked = false ∧
       (get_or_compute r.table "files:*" compute2).table = r.table) :=
  C6_get_or_compute String Int [] "files:*" rfl "boom" 42

/-! ## Claim C7: the restart budget of the clangd process manager

Source: src/mcp_clangd/clangd_manager.py lines 111-142 (ClangdManager.restart)
and lines 224-244 (ClangdManager._health_monitor); max_restarts = 3 is set at
line 50. -/

/-- Embeds the ClangdProcess fields restart handling reads (clangd_manager.py
lines 21-40): liveness and the restart counter. -/
structure ClangdProcSt where
  alive : Bool
  restartCount : Nat

/-- Manager state: the optional current process (clangd_manager.py line 48). -/
structure ManagerSt where
  proc : Option ClangdProcSt

/-- Embeds clangd_manager.py line 50: self.max_restarts = 3. -/
def maxRestarts : Nat := 3

/-- Embeds clangd_manager.py lines 111-142, ClangdManager.restart: raise a
fatal RuntimeError if a process exists whose restart counter has reached
max_restarts; otherwise compute the incremented counter (0 when no process
exists), stop the old process, start a new one, and stamp the new process
with the incremented counter. -/
def restart (st : ManagerSt) : Except String ManagerSt :=
  match st.proc with
  | some p =>
    if p.restartCount ≥ maxRestarts then
      .error "clangd keeps crashing - max restart attempts exceeded"
    else
      .ok ⟨some ⟨true, p.restartCount + 1⟩⟩
  | Option.none => .ok ⟨some ⟨true, 0⟩⟩

/-- Embeds clangd_manager.py lines 224-244, ClangdManager._health_monitor, as
a run over a list of poll outcomes: each entry of deadFlags tells whether the
5-second liveness check at that iteration finds the clangd process dead.  A
dead process triggers restart; a RuntimeError from restart breaks the loop.
Returns the final state, the number of automatic restarts performed, and
whether the loop ended by the fatal break. -/
def healthMonitor : List Bool → ManagerSt → Nat → ManagerSt × Nat × Bool
  | [], st, n => (st, n, false)
  | d :: ds, st, n =>
    match st.proc with
    | Option.none => healthMonitor ds st n
    | some p =>
      if d then
        match restart ⟨some p⟩ with
        | .ok st2 => healthMonitor ds st2 (n + 1)
        | .error _ => (st, n, true)
      else healthMonitor ds st n

/-- Invariant for the health monitor: starting from a live process with
restart counter r, the number of restarts it performs is bounded by what is
left of the budget. -/
theorem healthMonitor_restart_bound (ds : List Bool) :
    ∀ (p : ClangdProcSt) (n : Nat),
      (healthMonitor ds ⟨some p⟩ n).2.1 ≤ n + (maxRestarts - p.restartCount) := by
  induction ds with
  | nil => intro p n; simp [healthMonitor]
  | cons d ds ih =>
    intro p n
    simp only [healthMonitor]
    by_cases hd : d
    · simp only [hd, if_true]
      unfold restart
      by_cases hr : p.restartCount ≥ maxRestarts
      · simp only [hr, if_true]
        omega
      · simp only [hr, if_false]
        have := ih ⟨true, p.restartCount + 1⟩ (n + 1)
        simp at this ⊢
        omega
    · simp only [hd, if_false]
      exact ih p n

/-- Claim C7: in every run of the health monitor over any sequence of
liveness-poll outcomes, starting from a freshly started clangd process
(restart counter 0), at most max_restarts = 3 automatic restarts are
triggered - a 4th automatic restart is never attempted; and restart on a
process whose counter has reached 3 raises a fatal error instead of
restarting. -/
theorem C7_restart_budget (ds : List Bool) (p : ClangdProcSt)
    (h3 : p.restartCount ≥ 3) :
    (healthMonitor ds ⟨some ⟨true, 0⟩⟩ 0).2.1 ≤ 3 ∧
    restart ⟨some p⟩ = .error "clangd keeps crashing - max restart attempts exceeded" := by
  constructor
  · have := healthMonitor_restart_bound ds ⟨true, 0⟩ 0
    simpa [maxRestarts] using this
  · unfold restart maxRestarts
    simp [h3]

/-- Witness for C7: a run in which clangd is found dead at five consecutive
health checks performs exactly the three budgeted restarts and no more, and
restart on a process with counter 3 fails fatally. -/
theorem C7_restart_budget_witness :
    (healthMonitor [true, true, true, true, true] ⟨some ⟨true, 0⟩⟩ 0).2.1 ≤ 3 ∧
    restart ⟨some ⟨false, 3⟩⟩ = .error "clangd keeps crashing - max restart attempts exceeded" :=
  C7_restart_budget [true, true, true, true, true] ⟨false, 3⟩ (by decide)

/-! ## Claim C5: database errors and cache disabling

Source: src/mcp_clangd/cache.py, CacheManager: initialize (lines 31-77),
get (lines 145-175), set (lines 177-205).  The aiosqlite connection and
database are modelled by an explicit table of rows; "any exception raised
inside the try block" of each operation is modelled by a boolean dbErr
parameter.  Whether an operation touches the database is recorded: the code
reaches its database statements exactly when self.conn is not None. -/

/-- One row of the cache table (cache.py lines 49-56). -/
structure CacheRow where
  key : String
  result : String
  fileHash : String
  timestamp : Int

/-- The connected database: its cache table. -/
structure CacheDB where
  rows : List CacheRow

/-- CacheManager state relevant to the claim: the optional connection
(cache.py line 28: self.conn). -/
structure CacheManagerSt where
  conn : Option CacheDB

/-- Embeds cache.py line 27: self.ttl = 86400. -/
def cacheTtl : Int := 86400

/-- Embeds cache.py lines 31-77, CacheManager.initialize: do nothing when the
cache is disabled; otherwise connect and create the table, and on any
exception disable the cache by setting self.conn = None. -/
def cacheInitialize (cacheEnabled : Bool) (dbErr : Bool) : CacheManagerSt :=
  if ¬ cacheEnabled then ⟨Option.none⟩
  else if dbErr then ⟨Option.none⟩
  else ⟨some ⟨[]⟩⟩

/-- Outcome of a cache operation: returned value, state afterwards, and
whether the operation executed statements against the database. -/
structure CacheOpOutcome (α : Type) where
  value : α
  state : CacheManagerSt
  touchedDb : Bool

/-- Embeds cache.py lines 145-175, CacheManager.get: return None without
touching the database when self.conn is None; otherwise query for an
unexpired row (timestamp > now - ttl) and return its deserialized result;
any exception is logged and swallowed, returning None and leaving self.conn
untouched.  The JSON deserialization of the stored result text is not at
issue in this claim, so the stored text itself is returned. -/
def cacheGet (st : CacheManagerSt) (now : Int) (key : String) (dbErr : Bool) :
    CacheOpOutcome (Option String) :=
  match st.conn with
  | Option.none => ⟨Option.none, st, false⟩
  | some db =>
    if dbErr then ⟨Option.none, st, true⟩
    else
      let cutoff := now - cacheTtl
      match db.rows.find? (fun r => r.key = key ∧ cutoff < r.timestamp) with
      | some r => ⟨some r.result, st, true⟩
      | Option.none => ⟨Option.none, st, true⟩

/-- Embeds cache.py lines 188-191: the file hash recovered from a composite
cache key, parts[1] of key.split(":") when it has at least two parts, else
"unknown". -/
def fileHashFromKey (key : String) : String :=
  match pySplitChar key ':' with
  | _ :: h :: _ => h
  | _ => "unknown"

/-- Embeds cache.py lines 177-205, CacheManager.set: return without touching
the database when self.conn is None; otherwise INSERT OR REPLACE the row for
the key; any exception is logged and swallowed, leaving self.conn and the
stored rows untouched. -/
def cacheSet (st : CacheManagerSt) (now : Int) (key result : String) (dbErr : Bool) :
    CacheOpOutcome Unit :=
  match st.conn with
  | Option.none => ⟨(), st, false⟩
  | some db =>
    if dbErr then ⟨(), st, true⟩
    else
      let newRow : CacheRow := ⟨key, result, fileHashFromKey key, now⟩
      let replaced := db.rows.filter (fun r => r.key ≠ key) ++ [newRow]
      ⟨(), ⟨some ⟨replaced⟩⟩, true⟩

/-- Claim C5, as stated, is false: after the first database error raised by a
get or set operation, the cache is not disabled - the connection survives
and the very next get operation touches the database again (and returns a
stored value).  Concrete run: initialize successfully, store a row, have a
get fail with a database error, then run another get: it queries the
database and returns the stored result. -/
theorem C5_counterexample :
    (let st0 := cacheInitialize true false
     let st1 := (cacheSet st0 1000 "definition:abc:3:7" "r1" false).state
     let st2 := (cacheGet st1 1000 "definition:abc:3:7" true).state
     let out := cacheGet st2 1000 "definition:abc:3:7" false
     out.touchedDb = true ∧ out.value = some "r1" ∧ st2.conn ≠ Option.none) := by
  refine ⟨rfl, rfl, ?_⟩
  intro h
  simp [cacheInitialize, cacheSet, cacheGet] at h

/-- Claim C5 amended: only a database error during initialization disables
the cache for the remainder of the process (self.conn = None, after which no
get or set touches the database: get returns None and set stores nothing);
a database error raised by get or set is logged and swallowed for that one
operation - the failing get returns None and the failing set leaves the
stored rows unchanged - but the connection is kept, so subsequent operations
touch the database again. -/
theorem C5_amended (now : Int) (key result : String) (dbErr : Bool)
    (st : CacheManagerSt) (db : CacheDB) (hconn : st.conn = some db) :
    ((cacheInitialize true true).conn = Option.none ∧
     ∀ stDead : CacheManagerSt, stDead.conn = Option.none →
       (cacheGet stDead now key dbErr).value = Option.none ∧
       (cacheGet stDead now key dbErr).touchedDb = false ∧
       (cacheSet stDead now key result dbErr).state = stDead ∧
       (cacheSet stDead now key result dbErr).touchedDb = false) ∧
    ((cacheGet st now key true).value = Option.none ∧
     (cacheGet st now key true).state = st ∧
     (cacheSet st now key result true).state = st ∧
     (cacheGet st now key true).touchedDb = true ∧
     (cacheSet st now key result true).touchedDb = true) := by
  constructor
  · refine ⟨rfl, ?_⟩
    intro stDead hdead
    obtain ⟨c⟩ := stDead
    cases hdead
    exact ⟨rfl, rfl, rfl, rfl⟩
  · rw [show st = ⟨some db⟩ from by cases st; cases hconn; rfl]
    exact ⟨rfl, rfl, rfl, rfl, rfl⟩

/-- Witness for C5_amended at a concrete connected state. -/
theorem C5_amended_witness :
    ((cacheInitialize true true).conn = Option.none ∧
     ∀ stDead : CacheManagerSt, stDead.conn = Option.none →
       (cacheGet stDead 1000 "k" false).value = Option.none ∧
       (cacheGet stDead 1000 "k" false).touchedDb = false ∧
       (cacheSet stDead 1000 "k" "v" false).state = stDead ∧
       (cacheSet stDead 1000 "k" "v" false).touchedDb = false) ∧
    ((cacheGet ⟨some ⟨[]⟩⟩ 1000 "k" true).value = Option.none ∧
     (cacheGet ⟨some ⟨[]⟩⟩ 1000 "k" true).state = (⟨some ⟨[]⟩⟩ : CacheManagerSt) ∧
     (cacheSet ⟨some ⟨[]⟩⟩ 1000 "k" "v" true).state = (⟨some ⟨[]⟩⟩ : CacheManagerSt) ∧
     (cacheGet ⟨some ⟨[]⟩⟩ 1000 "k" true).touchedDb = true ∧
     (cacheSet ⟨some ⟨[]⟩⟩ 1000 "k" "v" true).touchedDb = true) :=
  C5_amended 1000 "k" "v" false ⟨some ⟨[]⟩⟩ ⟨[]⟩ rfl

/-! ## Claim C3: URI/path conversion at the LSP boundary

Sources: src/mcp_clangd/lsp_client.py lines 582-591 (the path_to_uri /
uri_to_path pair that lsp_methods.py line 10 imports and uses at every LSP
boundary) and src/mcp_clangd/utils.py lines 148-184 (the percent-encoding /
percent-decoding pair built on Path.as_uri and urllib.parse).

Python strings are modelled as lists of characters; filesystem paths for the
utils pair are modelled as their os.fsencode byte lists, which is the exact
domain of urllib.parse.quote_from_bytes used by Path.as_uri (percent
decoding is modelled at the byte level; Python's unquote additionally
UTF-8-decodes the byte sequence, which is the identity on the ASCII bytes
arising in these theorems). -/

/-- Char.toNat inverts Char.ofNat on the codepoints below the surrogate
range, which covers every byte value. -/
theorem char_toNat_ofNat (n : Nat) (h : n < 55296) : (Char.ofNat n).toNat = n := by
  unfold Char.ofNat
  split
  · rfl
  · next hval => exact absurd (Or.inl h) hval

/-- takeWhile is the identity on a list all of whose elements satisfy the
predicate. -/
theorem takeWhile_all {α : Type} (p : α → Bool) (l : List α)
    (h : ∀ c ∈ l, p c = true) : l.takeWhile p = l := by
  induction l with
  | nil => rfl
  | cons a l ih =>
    rw [List.takeWhile_cons, h a (by simp), ih (fun c hc => h c (by simp [hc]))]
    simp

/-- Embeds lsp_client.py lines 582-584, path_to_uri: the f-string
"file://" followed by path.resolve().  Path.resolve is the identity on an
absolute, already-normalized path, which is how the function is used. -/
def lspClientPathToUri (p : List Char) : List Char :=
  "file://".data ++ p

/-- Embeds lsp_client.py lines 587-591, uri_to_path: strip a literal
"file://" prefix if present (uri[7:]), no percent decoding; Path() around
the result is the identity on an already-normalized path string. -/
def lspClientUriToPath (u : List Char) : List Char :=
  if u.take 7 = "file://".data then u.drop 7 else u

/-- Bytes urllib.parse.quote never escapes (the parser's ALWAYS_SAFE set):
ASCII letters, digits, underscore, period, hyphen, tilde. -/
def isAlwaysSafeByte (b : Nat) : Bool :=
  (65 ≤ b ∧ b ≤ 90) ∨ (97 ≤ b ∧ b ≤ 122) ∨ (48 ≤ b ∧ b ≤ 57) ∨
  b = 95 ∨ b = 46 ∨ b = 45 ∨ b = 126

/-- Safe set for Path.as_uri's quote_from_bytes call, which passes safe="/":
the always-safe bytes plus the path separator 47. -/
def isSafePathByte (b : Nat) : Bool :=
  isAlwaysSafeByte b || b = 47

/-- Uppercase hex digit, as urllib.parse.quote emits in percent escapes. -/
def hexUpper (n : Nat) : Char :=
  if n < 10 then Char.ofNat (48 + n) else Char.ofNat (55 + n)

/-- Percent-quote one byte (urllib.parse.quote_from_bytes, per byte): safe
bytes pass through as their ASCII character, all others become a percent
escape with two uppercase hex digits. -/
def quoteByte (b : Nat) : List Char :=
  if isSafePathByte b then [Char.ofNat b] else ['%', hexUpper (b / 16), hexUpper (b % 16)]

/-- Percent-quote a byte string (urllib.parse.quote_from_bytes with safe="/"). -/
def quoteBytes (p : List Nat) : List Char :=
  p.flatMap quoteByte

/-- Embeds utils.py lines 148-163, path_to_uri: Path(path).resolve().as_uri(),
which for an absolute normalized POSIX path is "file://" followed by
quote_from_bytes(os.fsencode(path), safe="/"). -/
def utilsPathToUri (p : List Nat) : List Char :=
  "file://".data ++ quoteBytes p

/-- Value of a hex digit character, either case (int(c, 16) per digit). -/
def hexVal (c : Char) : Option Nat :=
  if 48 ≤ c.toNat ∧ c.toNat ≤ 57 then some (c.toNat - 48)
  else if 97 ≤ c.toNat ∧ c.toNat ≤ 102 then some (c.toNat - 87)
  else if 65 ≤ c.toNat ∧ c.toNat ≤ 70 then some (c.toNat - 55)
  else Option.none

/-- Model of urllib.parse.unquote at the byte level: each percent escape
followed by two hex digits decodes to its byte, any other character stands
for its own code, and a percent sign not followed by two hex digits is kept
literally (Python keeps the invalid escape text unchanged). -/
def unquoteBytes : List Char → List Nat
  | [] => []
  | '%' :: c1 :: c2 :: rest2 =>
    (match hexVal c1, hexVal c2 with
     | some h, some l => (16 * h + l) :: unquoteBytes rest2
     | _, _ => 37 :: unquoteBytes (c1 :: c2 :: rest2))
  | c :: rest => c.toNat :: unquoteBytes rest
termination_by l => l.length
decreasing_by all_goals (simp; try omega)

/-- Scheme characters accepted by urllib.parse.urlparse after the leading
letter: letters, digits, plus, minus, dot. -/
def isSchemeChar (c : Char) : Bool :=
  c.isAlphanum || c = '+' || c = '-' || c = '.'

/-- Whether a character list starts with an ASCII letter (urlparse requires
the scheme to). -/
def headIsAlpha : List Char → Bool
  | c :: _ => c.isAlpha
  | [] => false

/-- Model of urllib.parse.urlparse's scheme split: if the text before the
first colon is a nonempty valid scheme starting with a letter, return the
lowercased scheme and the remainder after the colon. -/
def urlparseSchemeRest (u : List Char) : Option (List Char × List Char) :=
  let pre := u.takeWhile (fun c => c ≠ ':')
  if pre.length < u.length ∧ pre ≠ [] ∧ pre.all isSchemeChar ∧ headIsAlpha pre then
    some (pre.map Char.toLower, u.drop (pre.length + 1))
  else Option.none

/-- Model of the path component of urllib.parse.urlparse: after removing the
scheme, a leading // introduces a network location extending to the next
slash, question mark or hash; the path is what remains before the query or
fragment.  The parameters split at a semicolon never applies here because
quote escapes semicolons. -/
def urlparsePathOf (u : List Char) : List Char :=
  let rest :=
    match urlparseSchemeRest u with
    | some pr => pr.2
    | Option.none => u
  let rest2 :=
    if rest.take 2 = ['/', '/'] then
      (rest.drop 2).dropWhile (fun c => c ≠ '/' ∧ c ≠ '?' ∧ c ≠ '#')
    else rest
  rest2.takeWhile (fun c => c ≠ '?' ∧ c ≠ '#')

/-- The scheme component of urllib.parse.urlparse (empty if none). -/
def urlparseScheme (u : List Char) : List Char :=
  match urlparseSchemeRest u with
  | some pr => pr.1
  | Option.none => []

/-- Embeds utils.py lines 166-184, uri_to_path: parse the URI; for the file
scheme return the percent-decoded path component, otherwise return the URI
unchanged (embedded here as its byte sequence, to give both branches one
return type). -/
def utilsUriToPath (u : List Char) : List Nat :=
  if urlparseScheme u = "file".data then unquoteBytes (urlparsePathOf u)
  else u.map Char.toNat

theorem isSafePathByte_bounds (b : Nat) (h : isSafePathByte b = true) :
    b < 128 ∧ b ≠ 37 ∧ b ≠ 63 ∧ b ≠ 35 := by
  simp [isSafePathByte, isAlwaysSafeByte] at h
  rcases h with h | h <;> omega

theorem unquoteBytes_safe (b : Nat) (hb : isSafePathByte b = true) (rest : List Char) :
    unquoteBytes (Char.ofNat b :: rest) = b :: unquoteBytes rest := by
  obtain ⟨hlt, h37, _, _⟩ := isSafePathByte_bounds b hb
  have htn : (Char.ofNat b).toNat = b := char_toNat_ofNat b (by omega)
  have hne : Char.ofNat b ≠ '%' := by
    intro h
    rw [h] at htn
    exact h37 htn.symm
  unfold unquoteBytes
  split
  · next heq => simp at heq
  · next heq => injection heq with h1 h2; exact absurd h1 hne
  · next c r heq =>
      injection heq with h1 h2
      subst h2
      rw [← h1, htn, ← unquoteBytes.eq_def]

theorem hexVal_hexUpper (n : Nat) (h : n < 16) : hexVal (hexUpper n) = some n := by
  unfold hexUpper hexVal
  by_cases h10 : n < 10
  · rw [if_pos h10, char_toNat_ofNat _ (by omega)]
    rw [if_pos (by omega)]
    congr 1
    omega
  · rw [if_neg h10, char_toNat_ofNat _ (by omega)]
    rw [if_neg (by omega), if_neg (by omega), if_pos (by omega)]
    congr 1
    omega

theorem unquoteBytes_escape (b : Nat) (hb : b < 256) (rest : List Char) :
    unquoteBytes ('%' :: hexUpper (b / 16) :: hexUpper (b % 16) :: rest) = b :: unquoteBytes rest := by
  unfold unquoteBytes
  split
  · next heq => simp at heq
  · next heq =>
      injection heq with h0 h1
      injection h1 with h1 h2
      injection h2 with h2 h3
      subst h1
      subst h2
      subst h3
      rw [hexVal_hexUpper _ (by omega), hexVal_hexUpper _ (by omega), ← unquoteBytes.eq_def]
      show (16 * (b / 16) + b % 16) :: unquoteBytes rest = b :: unquoteBytes rest
      congr 1
      omega
  · next hcatch heq =>
      injection heq with h1 h2
      exact (hcatch (hexUpper (b / 16)) (hexUpper (b % 16)) rest h1.symm h2.symm).elim

theorem unquote_quoteByte (b : Nat) (hb : b < 256) (rest : List Char) :
    unquoteBytes (quoteByte b ++ rest) = b :: unquoteBytes rest := by
  unfold quoteByte
  by_cases hs : isSafePathByte b = true
  · rw [if_pos hs]
    simpa using unquoteBytes_safe b hs rest
  · rw [if_neg hs]
    simpa using unquoteBytes_escape b hb rest

theorem unquote_quoteBytes (p : List Nat) (hb : ∀ b ∈ p, b < 256) :
    unquoteBytes (quoteBytes p) = p := by
  induction p with
  | nil => simp [quoteBytes, unquoteBytes]
  | cons b p ih =>
    rw [quoteBytes, List.flatMap_cons]
    rw [unquote_quoteByte b (hb b (by simp)) _]
    rw [show List.flatMap p quoteByte = quoteBytes p from rfl,
        ih (fun x hx => hb x (by simp [hx]))]

theorem char_ne_of_toNat_ne {c d : Char} (h : c.toNat ≠ d.toNat) : c ≠ d :=
  fun he => h (congrArg Char.toNat he)

theorem hexUpper_toNat (n : Nat) (h : n < 16) :
    (hexUpper n).toNat = if n < 10 then 48 + n else 55 + n := by
  unfold hexUpper
  by_cases h10 : n < 10
  · rw [if_pos h10, if_pos h10, char_toNat_ofNat _ (by omega)]
  · rw [if_neg h10, if_neg h10, char_toNat_ofNat _ (by omega)]

theorem quoteBytes_no_query (p : List Nat) (hb : ∀ b ∈ p, b < 256) :
    ∀ c ∈ quoteBytes p, (decide (c ≠ '?' ∧ c ≠ '#')) = true := by
  intro c hc
  rw [quoteBytes, List.mem_flatMap] at hc
  obtain ⟨b, hbp, hcb⟩ := hc
  have hb256 := hb b hbp
  simp only [decide_eq_true_eq]
  unfold quoteByte at hcb
  by_cases hs : isSafePathByte b = true
  · rw [if_pos hs] at hcb
    simp at hcb
    subst hcb
    obtain ⟨hlt, _, h63, h35⟩ := isSafePathByte_bounds b hs
    constructor
    · exact char_ne_of_toNat_ne (by rw [char_toNat_ofNat b (by omega)]; simpa using h63)
    · exact char_ne_of_toNat_ne (by rw [char_toNat_ofNat b (by omega)]; simpa using h35)
  · rw [if_neg hs] at hcb
    simp at hcb
    rcases hcb with hcb | hcb | hcb
    · subst hcb
      constructor <;> decide
    · subst hcb
      have := hexUpper_toNat (b / 16) (by omega)
      constructor <;>
        exact char_ne_of_toNat_ne (by rw [this]; split <;> simp <;> omega)
    · subst hcb
      have := hexUpper_toNat (b % 16) (by omega)
      constructor <;>
        exact char_ne_of_toNat_ne (by rw [this]; split <;> simp <;> omega)

theorem urlparseSchemeRest_file (q : List Char) :
    urlparseSchemeRest ("file://".data ++ q) = some ("file".data, '/' :: '/' :: q) := by
  unfold urlparseSchemeRest
  have hpre : (("file://".data ++ q).takeWhile (fun c => decide (c ≠ ':'))) =
      ['f', 'i', 'l', 'e'] := rfl
  rw [hpre]
  rw [if_pos]
  · rfl
  · refine ⟨?_, by decide, by decide, by decide⟩
    have h7 : ("file://".data ++ q).length = q.length + 7 := by
      simp [List.length_append]
    simp only [List.length_cons, List.length_nil, h7]
    omega

theorem urlparsePathOf_file (q : List Char) (hq : ∀ c ∈ q, (decide (c ≠ '?' ∧ c ≠ '#')) = true)
    (hhead : ∃ q2, q = '/' :: q2) :
    urlparsePathOf ("file://".data ++ q) = q := by
  obtain ⟨q2, rfl⟩ := hhead
  unfold urlparsePathOf
  rw [urlparseSchemeRest_file]
  show (if ('/' :: '/' :: '/' :: q2).take 2 = ['/', '/'] then
      (('/' :: '/' :: '/' :: q2).drop 2).dropWhile (fun c => decide (c ≠ '/' ∧ c ≠ '?' ∧ c ≠ '#'))
    else '/' :: '/' :: '/' :: q2).takeWhile (fun c => decide (c ≠ '?' ∧ c ≠ '#')) = '/' :: q2
  rw [if_pos (show List.take 2 ('/' :: '/' :: '/' :: q2) = ['/', '/'] from rfl)]
  show (('/' :: q2).dropWhile (fun c => decide (c ≠ '/' ∧ c ≠ '?' ∧ c ≠ '#'))).takeWhile
      (fun c => decide (c ≠ '?' ∧ c ≠ '#')) = '/' :: q2
  rw [List.dropWhile_cons_of_neg (by decide)]
  exact takeWhile_all _ _ hq

theorem urlparseScheme_file (q : List Char) :
    urlparseScheme ("file://".data ++ q) = "file".data := by
  unfold urlparseScheme
  rw [urlparseSchemeRest_file]

/-- Claim C3, as stated, is false: lsp_methods.py imports its URI/path
conversion from lsp_client.py, and that uri_to_path does not percent-decode.
For the file URI file:///tmp/my%20file.cpp received from clangd, the
converted filesystem path keeps the literal %20 and contains no space
character, where the claim requires the decoded space. -/
theorem C3_counterexample :
    lspClientUriToPath "file:///tmp/my%20file.cpp".data = "/tmp/my%20file.cpp".data ∧
    ' ' ∉ lspClientUriToPath "file:///tmp/my%20file.cpp".data ∧
    lspClientUriToPath "file:///tmp/my%20file.cpp".data ≠ "/tmp/my file.cpp".data := by
  refine ⟨rfl, by decide, by decide⟩

/-- Claim C3 amended: the percent-decoding bidirectional mapping is the pair
in utils.py - its uri_to_path decodes percent escapes (for example %20 to a
space), and for every absolute filesystem path, utils.path_to_uri followed by
utils.uri_to_path yields the original path.  The pair in lsp_client.py that
lsp_methods.py actually imports for the LSP boundary instead adds and strips
the literal file:// prefix with no percent translation; its own round trip
also holds, but a percent escape arriving from clangd stays undecoded there
(see the counterexample). -/
theorem utils_uri_path_roundtrip (p : List Nat) (hb : ∀ b ∈ p, b < 256)
    (habs : ∃ p2, p = 47 :: p2) :
    utilsUriToPath (utilsPathToUri p) = p := by
  unfold utilsPathToUri utilsUriToPath
  rw [if_pos (urlparseScheme_file _)]
  rw [urlparsePathOf_file _ (quoteBytes_no_query p hb) ?hd]
  · exact unquote_quoteBytes p hb
  · obtain ⟨p2, rfl⟩ := habs
    exact ⟨quoteBytes p2, rfl⟩

theorem C3_amended (p : List Nat) (hb : ∀ b ∈ p, b < 256)
    (habs : ∃ p2, p = 47 :: p2) (s : List Char) :
    utilsUriToPath (utilsPathToUri p) = p ∧
    utilsUriToPath "file:///tmp/my%20file.cpp".data = "/tmp/my file.cpp".data.map Char.toNat ∧
    lspClientUriToPath (lspClientPathToUri s) = s := by
  refine ⟨utils_uri_path_roundtrip p hb habs, ?_, ?_⟩
  · have hlit : "file:///tmp/my%20file.cpp".data =
        utilsPathToUri ("/tmp/my file.cpp".data.map Char.toNat) := by decide
    rw [hlit,
      utils_uri_path_roundtrip ("/tmp/my file.cpp".data.map Char.toNat) (by decide)
        ⟨"tmp/my file.cpp".data.map Char.toNat, by decide⟩]
  · unfold lspClientPathToUri lspClientUriToPath
    rw [if_pos (by rw [List.take_append_of_le_length (by decide)]; rfl)]
    rw [List.drop_append_of_le_length (by decide)]
    rfl

/-- Witness for C3_amended at the concrete absolute path /tmp/my file.cpp
(containing a space) and a concrete path string. -/
theorem C3_amended_witness :
    utilsUriToPath (utilsPathToUri (47 :: "tmp/my file.cpp".data.map Char.toNat)) =
      47 :: "tmp/my file.cpp".data.map Char.toNat ∧
    utilsUriToPath "file:///tmp/my%20file.cpp".data = "/tmp/my file.cpp".data.map Char.toNat ∧
    lspClientUriToPath (lspClientPathToUri "/tmp/a.cpp".data) = "/tmp/a.cpp".data :=
  C3_amended (47 :: "tmp/my file.cpp".data.map Char.toNat) (by decide) ⟨"tmp/my file.cpp".data.map Char.toNat, rfl⟩ "/tmp/a.cpp".data

/-! ## Claim C4: minimal-level context versus the hover documentation

Sources: src/mcp_clangd/lsp_methods.py lines 292-347 (LSPMethods.get_hover,
extraction of type/documentation from the LSP hover contents and the
normalized result dict it returns) and lines 451-473
(LSPMethods._extract_type_from_markdown); src/mcp_clangd/context_provider.py
lines 46-62 (ContextProvider._get_minimal_context) and lines 204-246
(symbol name/kind extraction). -/

/-- One element of an LSP marked-string array (lsp_methods.py lines 323-330):
a dict containing a value key, a plain string, or anything else (skipped). -/
inductive MarkedString where
  | withValue (value : String)
  | plain (s : String)
  | other

/-- The shapes of hover contents get_hover distinguishes (lsp_methods.py
lines 313-335): a dict with kind and value, a plain string, or an array of
marked strings.  The final else branch (str(contents) on any other shape)
does not occur for LSP hover responses and is not modelled. -/
inductive HoverContents where
  | dict (kind : String) (value : String)
  | str (s : String)
  | arr (items : List MarkedString)

/-- First-loop line filter of _extract_type_from_markdown (lsp_methods.py
lines 455-465): skip fence lines and empty/heading/bullet lines, accept the
first remaining line as type information. -/
def mdTypeLine1 (l : String) : Bool :=
  let line := pyStrip l
  if line.startsWith "```cpp" || line.startsWith "```c" then false
  else if line.startsWith "```" then false
  else if line = "```" then false
  else if line ≠ "" ∧ ¬ line.startsWith "#" ∧ ¬ line.startsWith "*" then true
  else false

/-- Fallback-loop line filter of _extract_type_from_markdown (lsp_methods.py
lines 468-471): the first nonempty line that is not a fence or heading. -/
def mdTypeLine2 (l : String) : Bool :=
  let line := pyStrip l
  line ≠ "" ∧ ¬ line.startsWith "```" ∧ ¬ line.startsWith "#"

/-- Embeds lsp_methods.py lines 451-473, _extract_type_from_markdown. -/
def extractTypeFromMarkdown (markdown : String) : String :=
  let lines := pySplitChar markdown '\n'
  match lines.find? mdTypeLine1 with
  | some l => pyStrip l
  | Option.none =>
    match lines.find? mdTypeLine2 with
    | some l => pyStrip l
    | Option.none => ""

/-- The type/documentation pair get_hover extracts from the hover contents. -/
structure HoverNorm where
  type : String
  documentation : String

/-- Embeds lsp_methods.py lines 310-335: extraction of type_info and
documentation from the hover contents, by content shape. -/
def getHoverExtract : HoverContents → HoverNorm
  | .dict kind value =>
    if kind = "markdown" then ⟨extractTypeFromMarkdown value, value⟩
    else if kind = "plaintext" then ⟨if value ≠ "" then pyFirstLine value else "", value⟩
    else ⟨"", ""⟩
  | .str s => ⟨if s ≠ "" then pyFirstLine s else "", s⟩
  | .arr items =>
    let parts := items.filterMap (fun it =>
      match it with
      | .withValue v => some v
      | .plain s => some s
      | .other => Option.none)
    ⟨parts.headD "", String.intercalate "\n" parts⟩

/-- Embeds lsp_methods.py lines 337-341: the normalized hover result dict
get_hover returns, with keys type (stripped), documentation (stripped) and
range. -/
def getHoverResultDict (contents : HoverContents) (range : PyVal) : List (String × PyVal) :=
  let n := getHoverExtract contents
  [("type", .str (pyStrip n.type)),
   ("documentation", .str (pyStrip n.documentation)),
   ("range", range)]

/-- Word characters of the regex class used in context_provider.py line 221. -/
def isWordChar (c : Char) : Bool :=
  (65 ≤ c.toNat ∧ c.toNat ≤ 90) ∨ (97 ≤ c.toNat ∧ c.toNat ≤ 122) ∨
  (48 ≤ c.toNat ∧ c.toNat ≤ 57) ∨ c = '_'

/-- Accumulator pass collecting maximal word-character runs: acc holds the
reversed current run. -/
def wordRunsAux : List Char → List Char → List (List Char)
  | [], acc => if acc = [] then [] else [acc.reverse]
  | c :: rest, acc =>
    if isWordChar c then wordRunsAux rest (c :: acc)
    else if acc = [] then wordRunsAux rest []
    else acc.reverse :: wordRunsAux rest []

/-- Maximal word-character runs of a string (the token stream regex
word-boundary matching walks over). -/
def wordRuns (l : List Char) : List (List Char) :=
  wordRunsAux l []

/-- Matches of the pattern for identifiers in context_provider.py line 221
(a word run starting with a letter or underscore; runs starting with a digit
have no word boundary inside, so they yield no match). -/
def reFindIdentifiers (s : String) : List String :=
  ((wordRuns s.data).filter
    (fun r => match r with
      | c :: _ => ¬ (48 ≤ c.toNat ∧ c.toNat ≤ 57)
      | [] => false)).map String.mk

/-- Model of Python str.isidentifier restricted to ASCII: nonempty, first
character a letter or underscore, remaining characters word characters. -/
def pyIsIdentifier (s : String) : Bool :=
  match s.data with
  | [] => false
  | c :: rest => (c.isAlpha || c = '_') && rest.all isWordChar

/-- Model of re.sub applied at context_provider.py line 215: the pattern
removes everything from the first opening parenthesis that is followed by a
closing parenthesis (the input is a single line, so the dot matches every
remaining character). -/
def dropFromParen : List Char → List Char
  | [] => []
  | c :: rest => if c = '(' ∧ rest.contains ')' then [] else c :: dropFromParen rest

/-- Model of Python str.split() with no arguments: split on whitespace runs,
discarding empty tokens. -/
def pySplitWs (s : String) : List String :=
  ((wordsAux s.data).filter (fun t => t ≠ [])).map String.mk
where
  /-- Splits a character list at whitespace characters. -/
  wordsAux : List Char → List (List Char)
    | [] => [[]]
    | c :: rest =>
      if pyIsSpace c then [] :: wordsAux rest
      else
        match wordsAux rest with
        | t :: ts => (c :: t) :: ts
        | [] => [[c]]

/-- The per-line step of the name-extraction loop in context_provider.py
lines 208-218: for a line containing a colon with text after it, strip the
second colon-part, drop a parenthesized parameter tail, take its first
whitespace-separated word, and accept it when it is an identifier.  Python
would raise an IndexError if the cleaned part has no words; that path, not
reachable in these theorems, is modelled as no match. -/
def nameFromLine (line : String) : Option String :=
  let parts := pySplitChar line ':'
  if 2 ≤ parts.length then
    let symbol := pyStrip (parts.getD 1 "")
    let symbol := String.mk (dropFromParen symbol.data)
    match pySplitWs symbol with
    | w :: _ => if w ≠ "" ∧ pyIsIdentifier w then some w else Option.none
    | [] => Option.none
  else Option.none

/-- Embeds context_provider.py lines 204-222, _extract_symbol_name: try the
first three lines for a colon-labelled name, else fall back to the first
identifier found anywhere in the text, else unknown. -/
def extractSymbolName (doc_text : String) : String :=
  let lines := pySplitChar doc_text '\n'
  match (lines.take 3).findSome? nameFromLine with
  | some n => n
  | Option.none =>
    match reFindIdentifiers doc_text with
    | i :: _ => i
    | [] => "unknown"

/-- Model of the Python substring test sub in s. -/
def strContains (s sub : String) : Bool :=
  (List.range (s.data.length + 1)).any
    (fun i => ((s.data.drop i).take sub.data.length) = sub.data)

/-- Model of Python str.lower restricted to ASCII case mapping. -/
def pyLower (s : String) : String :=
  String.mk (s.data.map Char.toLower)

/-- Embeds context_provider.py lines 224-246, _extract_symbol_kind: a
case-insensitive keyword scan with a fixed priority order, defaulting to
symbol. -/
def extractSymbolKind (doc_text : String) : String :=
  let doc_lower := pyLower doc_text
  if strContains doc_lower "function" || strContains doc_text "(" then "function"
  else if strContains doc_lower "class" then "class"
  else if strContains doc_lower "template" then "template"
  else if strContains doc_lower "macro" || strContains doc_text "#define" then "macro"
  else if strContains doc_lower "variable" || strContains doc_lower "var" then "variable"
  else if strContains doc_lower "struct" then "struct"
  else if strContains doc_lower "enum" then "enum"
  else if strContains doc_lower "typedef" then "typedef"
  else "symbol"

/-- Embeds context_provider.py lines 46-62, the pure part of
_get_minimal_context applied to the hover result it received from
LSPMethods.get_hover: contents = hover_result.get("contents", {}); the doc
text is contents["value"] when contents is a dict (default empty), else
str(contents). -/
def getMinimalContextDocText (hover_result : List (String × PyVal)) : String :=
  match dictGetD hover_result "contents" (.dict []) with
  | .dict kvs =>
    match dictGetD kvs "value" (.str "") with
    | .str s => s
    | _ => ""
  | .str s => s
  | _ => ""

/-- Embeds context_provider.py lines 56-62: the ContextData built by
_get_minimal_context. -/
def getMinimalContext (hover_result : List (String × PyVal)) : ContextData :=
  let doc_text := getMinimalContextDocText hover_result
  { primary_content := doc_text
    symbol_name := extractSymbolName doc_text
    symbol_kind := extractSymbolKind doc_text
    context_level := "minimal"
    source := "clangd_index" }

/-- Claim C4 fails on the code and the specification states the intent: for a
position whose hover yields the nonempty documentation text D (here a
markdown hover), get_hover returns a normalized dict whose documentation key
holds D, but _get_minimal_context looks up a contents key that this dict
never contains, so the minimal-level primary_content is the empty string,
not D (and the symbol name/kind are extracted from that empty string). -/
theorem C4_minimal_context_loses_hover_doc :
    (dictGet (getHoverResultDict
        (.dict "markdown" "int counter\nA counter used by the loop.") (.dict []))
        "documentation" = some (.str "int counter\nA counter used by the loop.")) ∧
    "int counter\nA counter used by the loop." ≠ "" ∧
    (getMinimalContext (getHoverResultDict
        (.dict "markdown" "int counter\nA counter used by the loop.") (.dict []))).primary_content
      = "" ∧
    (getMinimalContext (getHoverResultDict
        (.dict "markdown" "int counter\nA counter used by the loop.") (.dict []))).symbol_name
      = "unknown" := by
  refine ⟨rfl, by decide, rfl, rfl⟩

/-! ## Claim C2: bounds, dedup and ordering of the recursive call hierarchy

Sources: src/mcp_clangd/lsp_methods.py lines 719-840
(LSPMethods._get_recursive_incoming_calls) and lines 842-963
(LSPMethods._get_recursive_outgoing_calls).  The two functions have the same
body except for the LSP method they call (callHierarchy/incomingCalls versus
callHierarchy/outgoingCalls) and the field of each returned call they read
(call["from"] versus call["to"]); the shared body is embedded once, over an
oracle that models the clangd responses as a function from a call-hierarchy
item to the list of (item, fromRanges) pairs the LSP request returns, and
the two source functions are defined from it.  An empty oracle answer also
covers a request that raises (the except branch continues with the next
item, which has the same effect on the state as an empty response).  The
lsp_client.request call is recorded in a request trace so that the claim
about never issuing the same request twice is expressible. -/

/-- A call-hierarchy item as used by the traversal: clangd's JSON object,
of which the code reads uri, range start/end, name, detail and kind. -/
structure CHItem where
  name : String
  uri : String
  startLine : Nat
  startChar : Nat
  endLine : Nat
  endChar : Nat
  detail : String
  kind : Nat

/-- A source range of one call site (only the start is read). -/
structure CHRange where
  startLine : Nat
  startChar : Nat

/-- Visited-set key of an item (lsp_methods.py lines 777 and 900):
the f-string uri:range.start.line. -/
def itemKey (it : CHItem) : String :=
  it.uri ++ ":" ++ toString it.startLine

/-- One call record emitted by the traversal (lsp_methods.py lines 797-809
and 920-932). -/
structure CallRec where
  name : String
  file : String
  line : Nat
  column : Nat
  end_line : Nat
  end_column : Nat
  detail : String
  kind : Nat
  call_line : Nat
  call_column : Nat
  depth : Nat

/-- The record built for one (item, range) pair at one depth, with the
uri-to-path conversion of lsp_client.py applied to the item uri. -/
def mkCallRec (info : CHItem) (r : CHRange) (currentDepth : Nat) : CallRec :=
  { name := info.name
    file := String.mk (lspClientUriToPath info.uri.data)
    line := info.startLine + 1
    column := info.startChar + 1
    end_line := info.endLine + 1
    end_column := info.endChar + 1
    detail := info.detail
    kind := info.kind
    call_line := r.startLine + 1
    call_column := r.startChar + 1
    depth := currentDepth + 1 }

/-- Traversal state: the visited key set, the accumulated call records, the
trace of issued LSP call-hierarchy requests (by item key), and whether the
early return on reaching the global limit has fired (a return there
terminates the whole traversal, because the recursive call into the next
depth is the last statement of each activation). -/
structure TravSt where
  visited : List String
  allCalls : List CallRec
  requests : List String
  stopped : Bool

/-- Processing of the ranges loop of one call (lsp_methods.py lines 795-815):
emit a record per range (capped at 5 by the caller), and return - setting
the stopped flag - once the accumulated records reach maxTotal. -/
def procRanges (maxTotal : Nat) (info : CHItem) (d : Nat) :
    List CHRange → TravSt → TravSt
  | [], st => st
  | r :: rs, st =>
    if st.stopped then st
    else
      let st2 : TravSt := { st with allCalls := st.allCalls ++ [mkCallRec info r d] }
      if maxTotal ≤ st2.allCalls.length then { st2 with stopped := true }
      else procRanges maxTotal info d rs st2

/-- Processing of one returned call (lsp_methods.py lines 790-819): walk up
to 5 of its ranges, then, unless the traversal stopped inside the ranges
loop, collect the call's item for the next depth level when one remains. -/
def procCall (maxDepth maxTotal : Nat) (d : Nat) (call : CHItem × List CHRange)
    (st : TravSt) (toRecurse : List CHItem) : TravSt × List CHItem :=
  if st.stopped then (st, toRecurse)
  else
    let st2 := procRanges maxTotal call.1 d (call.2.take 5) st
    if st2.stopped then (st2, toRecurse)
    else (st2, if d + 1 < maxDepth then toRecurse ++ [call.1] else toRecurse)

/-- The calls loop over one response (capped at maxPerLevel by the caller). -/
def procCalls (maxDepth maxTotal : Nat) (d : Nat) :
    List (CHItem × List CHRange) → TravSt × List CHItem → TravSt × List CHItem
  | [], p => p
  | call :: calls, p =>
    procCalls maxDepth maxTotal d calls (procCall maxDepth maxTotal d call p.1 p.2)

/-- Processing of one item of the current level (lsp_methods.py lines
776-825): skip an already-visited key, otherwise mark it visited, issue the
call-hierarchy request (recorded in the request trace; oracle gives the
response, the empty response also covering the falsy response and the
exception path), and process the returned calls. -/
def procItem (oracle : CHItem → List (CHItem × List CHRange))
    (maxDepth maxPerLevel maxTotal : Nat) (d : Nat) (item : CHItem)
    (p : TravSt × List CHItem) : TravSt × List CHItem :=
  let st := p.1
  if st.stopped then p
  else if itemKey item ∈ st.visited then p
  else
    let st2 : TravSt := { st with visited := st.visited ++ [itemKey item],
                                  requests := st.requests ++ [itemKey item] }
    let calls := oracle item
    if calls.isEmpty then (st2, p.2)
    else procCalls maxDepth maxTotal d (calls.take maxPerLevel) (st2, p.2)

/-- The items loop of one depth level (capped at maxPerLevel by the caller). -/
def procItems (oracle : CHItem → List (CHItem × List CHRange))
    (maxDepth maxPerLevel maxTotal : Nat) (d : Nat) :
    List CHItem → TravSt × List CHItem → TravSt × List CHItem
  | [], p => p
  | item :: items, p =>
    procItems oracle maxDepth maxPerLevel maxTotal d items
      (procItem oracle maxDepth maxPerLevel maxTotal d item p)

/-- Embeds _get_calls_at_depth (lsp_methods.py lines 767-829 and 890-952):
stop at maxDepth, process up to maxPerLevel items of the level, then recurse
into the collected next-level items when depth and the global limit allow. -/
def getCallsAtDepth (oracle : CHItem → List (CHItem × List CHRange))
    (maxDepth maxPerLevel maxTotal : Nat) (d : Nat) (items : List CHItem)
    (st : TravSt) : TravSt :=
  if maxDepth ≤ d then st
  else if (procItems oracle maxDepth maxPerLevel maxTotal d (items.take maxPerLevel)
        (st, [])).2.isEmpty = false ∧ d + 1 < maxDepth ∧
      (procItems oracle maxDepth maxPerLevel maxTotal d (items.take maxPerLevel)
        (st, [])).1.allCalls.length < maxTotal then
    getCallsAtDepth oracle maxDepth maxPerLevel maxTotal (d + 1)
      (procItems oracle maxDepth maxPerLevel maxTotal d (items.take maxPerLevel) (st, [])).2
      (procItems oracle maxDepth maxPerLevel maxTotal d (items.take maxPerLevel) (st, [])).1
  else (procItems oracle maxDepth maxPerLevel maxTotal d (items.take maxPerLevel) (st, [])).1
termination_by maxDepth - d
decreasing_by omega

/-- Sort key order of lsp_methods.py lines 837 and 960: the Python tuple
comparison on (depth, file, line). -/
def callRecLe (a b : CallRec) : Bool :=
  a.depth < b.depth ∨
    (a.depth = b.depth ∧ (a.file < b.file ∨ (a.file = b.file ∧ a.line ≤ b.line)))

/-- Embeds the shared body of _get_recursive_incoming_calls /
_get_recursive_outgoing_calls (lsp_methods.py lines 719-840 and 842-963)
after the document-open and prepareCallHierarchy steps: empty result on a
non-positive depth budget or an empty (falsy) prepare result; otherwise the
recursive traversal from depth 0, a stable sort by (depth, file, line), and
truncation to maxTotal.  Returns the records together with the request
trace. -/
def recursiveCallsCore (oracle : CHItem → List (CHItem × List CHRange))
    (prepareResult : List CHItem) (maxDepth maxPerLevel maxTotal : Nat) :
    List CallRec × List String :=
  if maxDepth = 0 then ([], [])
  else if prepareResult.isEmpty then ([], [])
  else
    let st := getCallsAtDepth oracle maxDepth maxPerLevel maxTotal 0 prepareResult
      ⟨[], [], [], false⟩
    ((st.allCalls.mergeSort callRecLe).take maxTotal, st.requests)

/-- One incoming call of a callHierarchy/incomingCalls response: the code
reads call["from"] and call["fromRanges"]. -/
structure IncomingCall where
  frm : CHItem
  fromRanges : List CHRange

/-- One outgoing call of a callHierarchy/outgoingCalls response: the code
reads call["to"] (field toItem here, since to is reserved) and
call["fromRanges"]. -/
structure OutgoingCall where
  toItem : CHItem
  fromRanges : List CHRange

/-- Embeds lsp_methods.py lines 719-840, _get_recursive_incoming_calls, for
an incomingCalls oracle. -/
def getRecursiveIncomingCalls (oracle : CHItem → List IncomingCall)
    (prepareResult : List CHItem) (maxDepth maxPerLevel maxTotal : Nat) :
    List CallRec × List String :=
  recursiveCallsCore (fun it => (oracle it).map (fun c => (c.frm, c.fromRanges)))
    prepareResult maxDepth maxPerLevel maxTotal

/-- Embeds lsp_methods.py lines 842-963, _get_recursive_outgoing_calls, for
an outgoingCalls oracle. -/
def getRecursiveOutgoingCalls (oracle : CHItem → List OutgoingCall)
    (prepareResult : List CHItem) (maxDepth maxPerLevel maxTotal : Nat) :
    List CallRec × List String :=
  recursiveCallsCore (fun it => (oracle it).map (fun c => (c.toItem, c.fromRanges)))
    prepareResult maxDepth maxPerLevel maxTotal

/-- Request-trace invariant of the traversal: the issued requests are
pairwise distinct and every issued request is recorded in the visited set. -/
def ReqInv (st : TravSt) : Prop :=
  st.requests.Nodup ∧ ∀ k ∈ st.requests, k ∈ st.visited

theorem procRanges_spec (maxTotal : Nat) (info : CHItem) (d : Nat) :
    ∀ (rs : List CHRange) (st : TravSt),
      (procRanges maxTotal info d rs st).visited = st.visited ∧
      (procRanges maxTotal info d rs st).requests = st.requests ∧
      ∃ new, (procRanges maxTotal info d rs st).allCalls = st.allCalls ++ new ∧
        ∀ x ∈ new, x.depth = d + 1 := by
  intro rs
  induction rs with
  | nil => intro st; exact ⟨rfl, rfl, [], by simp [procRanges], by simp⟩
  | cons r rs ih =>
    intro st
    simp only [procRanges]
    by_cases hs : st.stopped = true
    · rw [if_pos hs]
      exact ⟨rfl, rfl, [], by simp, by simp⟩
    · rw [if_neg hs]
      by_cases hlim : maxTotal ≤ (st.allCalls ++ [mkCallRec info r d]).length
      · rw [if_pos hlim]
        refine ⟨rfl, rfl, [mkCallRec info r d], rfl, ?_⟩
        intro x hx
        rcases List.mem_singleton.mp hx with rfl
        rfl
      · rw [if_neg hlim]
        obtain ⟨hv, hr, new, hc, hd⟩ := ih { st with allCalls := st.allCalls ++ [mkCallRec info r d] }
        refine ⟨hv, hr, mkCallRec info r d :: new, ?_, ?_⟩
        · rw [hc]
          simp
        · intro x hx
          rcases List.mem_cons.mp hx with rfl | hx
          · rfl
          · exact hd x hx

theorem procCall_spec (maxDepth maxTotal : Nat) (d : Nat) (call : CHItem × List CHRange)
    (st : TravSt) (tr : List CHItem) :
    (procCall maxDepth maxTotal d call st tr).1.visited = st.visited ∧
    (procCall maxDepth maxTotal d call st tr).1.requests = st.requests ∧
    ∃ new, (procCall maxDepth maxTotal d call st tr).1.allCalls = st.allCalls ++ new ∧
      ∀ x ∈ new, x.depth = d + 1 := by
  obtain ⟨hv, hr, new, hc, hd⟩ := procRanges_spec maxTotal call.1 d (call.2.take 5) st
  simp only [procCall]
  by_cases hs : st.stopped = true
  · rw [if_pos hs]
    exact ⟨rfl, rfl, [], by simp, by simp⟩
  · rw [if_neg hs]
    by_cases h2 : (procRanges maxTotal call.1 d (call.2.take 5) st).stopped = true
    · rw [if_pos h2]
      exact ⟨hv, hr, new, hc, hd⟩
    · rw [if_neg h2]
      exact ⟨hv, hr, new, hc, hd⟩

theorem procCalls_spec (maxDepth maxTotal : Nat) (d : Nat) :
    ∀ (calls : List (CHItem × List CHRange)) (p : TravSt × List CHItem),
      (procCalls maxDepth maxTotal d calls p).1.visited = p.1.visited ∧
      (procCalls maxDepth maxTotal d calls p).1.requests = p.1.requests ∧
      ∃ new, (procCalls maxDepth maxTotal d calls p).1.allCalls = p.1.allCalls ++ new ∧
        ∀ x ∈ new, x.depth = d + 1 := by
  intro calls
  induction calls with
  | nil => intro p; exact ⟨rfl, rfl, [], by simp [procCalls], by simp⟩
  | cons c calls ih =>
    intro p
    simp only [procCalls]
    obtain ⟨hv1, hr1, new1, hc1, hd1⟩ := procCall_spec maxDepth maxTotal d c p.1 p.2
    obtain ⟨hv2, hr2, new2, hc2, hd2⟩ := ih (procCall maxDepth maxTotal d c p.1 p.2)
    refine ⟨hv2.trans hv1, hr2.trans hr1, new1 ++ new2, ?_, ?_⟩
    · rw [hc2, hc1, List.append_assoc]
    · intro x hx
      rcases List.mem_append.mp hx with hx | hx
      · exact hd1 x hx
      · exact hd2 x hx

theorem procItem_spec (oracle : CHItem → List (CHItem × List CHRange))
    (maxDepth maxPerLevel maxTotal : Nat) (d : Nat) (item : CHItem)
    (p : TravSt × List CHItem) :
    (((procItem oracle maxDepth maxPerLevel maxTotal d item p).1.visited = p.1.visited ∧
      (procItem oracle maxDepth maxPerLevel maxTotal d item p).1.requests = p.1.requests) ∨
     (itemKey item ∉ p.1.visited ∧
      (procItem oracle maxDepth maxPerLevel maxTotal d item p).1.visited =
        p.1.visited ++ [itemKey item] ∧
      (procItem oracle maxDepth maxPerLevel maxTotal d item p).1.requests =
        p.1.requests ++ [itemKey item])) ∧
    ∃ new, (procItem oracle maxDepth maxPerLevel maxTotal d item p).1.allCalls =
        p.1.allCalls ++ new ∧ ∀ x ∈ new, x.depth = d + 1 := by
  simp only [procItem]
  by_cases hs : p.1.stopped = true
  · rw [if_pos hs]
    exact ⟨Or.inl ⟨rfl, rfl⟩, [], by simp, by simp⟩
  · rw [if_neg hs]
    by_cases hvis : itemKey item ∈ p.1.visited
    · rw [if_pos hvis]
      exact ⟨Or.inl ⟨rfl, rfl⟩, [], by simp, by simp⟩
    · rw [if_neg hvis]
      by_cases hemp : (oracle item).isEmpty = true
      · rw [if_pos hemp]
        exact ⟨Or.inr ⟨hvis, rfl, rfl⟩, [], by simp, by simp⟩
      · rw [if_neg hemp]
        obtain ⟨hv, hr, new, hc, hd⟩ := procCalls_spec maxDepth maxTotal d
          ((oracle item).take maxPerLevel)
          ({ p.1 with visited := p.1.visited ++ [itemKey item],
                      requests := p.1.requests ++ [itemKey item] }, p.2)
        exact ⟨Or.inr ⟨hvis, hv, hr⟩, new, hc, hd⟩

theorem procItems_spec (oracle : CHItem → List (CHItem × List CHRange))
    (maxDepth maxPerLevel maxTotal : Nat) (d : Nat) :
    ∀ (items : List CHItem) (p : TravSt × List CHItem),
      ReqInv p.1 →
      (ReqInv (procItems oracle maxDepth maxPerLevel maxTotal d items p).1 ∧
       (∀ k ∈ p.1.visited,
          k ∈ (procItems oracle maxDepth maxPerLevel maxTotal d items p).1.visited)) ∧
      ∃ new, (procItems oracle maxDepth maxPerLevel maxTotal d items p).1.allCalls =
          p.1.allCalls ++ new ∧ ∀ x ∈ new, x.depth = d + 1 := by
  intro items
  induction items with
  | nil =>
    intro p hinv
    exact ⟨⟨hinv, fun k hk => hk⟩, [], by simp [procItems], by simp⟩
  | cons item items ih =>
    intro p hinv
    obtain ⟨hnd, hsub⟩ := hinv
    simp only [procItems]
    obtain ⟨hvr1, new1, hc1, hd1⟩ :=
      procItem_spec oracle maxDepth maxPerLevel maxTotal d item p
    have hinv1 : ReqInv (procItem oracle maxDepth maxPerLevel maxTotal d item p).1 ∧
        ∀ k ∈ p.1.visited,
          k ∈ (procItem oracle maxDepth maxPerLevel maxTotal d item p).1.visited := by
      rcases hvr1 with ⟨hv1, hr1⟩ | ⟨hnewkey, hv1, hr1⟩
      · exact ⟨⟨by rw [hr1]; exact hnd, by rw [hr1, hv1]; exact hsub⟩,
          by rw [hv1]; exact fun k hk => hk⟩
      · refine ⟨⟨?_, ?_⟩, ?_⟩
        · rw [hr1, List.nodup_append]
          refine ⟨hnd, List.nodup_singleton _, ?_⟩
          intro a ha hb
          rcases List.mem_singleton.mp hb with rfl
          exact hnewkey (hsub _ ha)
        · rw [hr1, hv1]
          intro k hk
          rcases List.mem_append.mp hk with hk | hk
          · exact List.mem_append_left _ (hsub k hk)
          · exact List.mem_append_right _ hk
        · rw [hv1]
          intro k hk
          exact List.mem_append_left _ hk
    obtain ⟨⟨hinv2, hsub2⟩, new2, hc2, hd2⟩ :=
      ih (procItem oracle maxDepth maxPerLevel maxTotal d item p) hinv1.1
    refine ⟨⟨hinv2, fun k hk => hsub2 k (hinv1.2 k hk)⟩, new1 ++ new2, ?_, ?_⟩
    · rw [hc2, hc1, List.append_assoc]
    · intro x hx
      rcases List.mem_append.mp hx with hx | hx
      · exact hd1 x hx
      · exact hd2 x hx

theorem getCallsAtDepth_spec (oracle : CHItem → List (CHItem × List CHRange))
    (maxDepth maxPerLevel maxTotal : Nat) :
    ∀ (n d : Nat) (items : List CHItem) (st : TravSt), maxDepth - d ≤ n →
      ReqInv st →
      ReqInv (getCallsAtDepth oracle maxDepth maxPerLevel maxTotal d items st) ∧
      ∃ new, (getCallsAtDepth oracle maxDepth maxPerLevel maxTotal d items st).allCalls =
          st.allCalls ++ new ∧
        ∀ x ∈ new, d + 1 ≤ x.depth ∧ x.depth ≤ maxDepth := by
  intro n
  induction n with
  | zero =>
    intro d items st hn hinv
    have hd : maxDepth ≤ d := by omega
    rw [getCallsAtDepth.eq_def, if_pos hd]
    exact ⟨hinv, [], by simp, by simp⟩
  | succ n ih =>
    intro d items st hn hinv
    rw [getCallsAtDepth.eq_def]
    by_cases hd : maxDepth ≤ d
    · rw [if_pos hd]
      exact ⟨hinv, [], by simp, by simp⟩
    · rw [if_neg hd]
      obtain ⟨⟨hinv1, _⟩, new1, hc1, hd1⟩ := procItems_spec oracle maxDepth maxPerLevel
        maxTotal d (items.take maxPerLevel) (st, []) hinv
      by_cases hrec : (procItems oracle maxDepth maxPerLevel maxTotal d
          (items.take maxPerLevel) (st, [])).2.isEmpty = false ∧ d + 1 < maxDepth ∧
          (procItems oracle maxDepth maxPerLevel maxTotal d
            (items.take maxPerLevel) (st, [])).1.allCalls.length < maxTotal
      · rw [if_pos hrec]
        obtain ⟨hinv2, new2, hc2, hd2⟩ := ih (d + 1)
          (procItems oracle maxDepth maxPerLevel maxTotal d (items.take maxPerLevel) (st, [])).2
          (procItems oracle maxDepth maxPerLevel maxTotal d (items.take maxPerLevel) (st, [])).1
          (by omega) hinv1
        refine ⟨hinv2, new1 ++ new2, ?_, ?_⟩
        · rw [hc2, hc1, List.append_assoc]
        · intro x hx
          rcases List.mem_append.mp hx with hx | hx
          · have := hd1 x hx
            omega
          · have := hd2 x hx
            omega
      · rw [if_neg hrec]
        refine ⟨hinv1, new1, hc1, ?_⟩
        intro x hx
        have := hd1 x hx
        omega

theorem callRecLe_trans : ∀ a b c : CallRec,
    callRecLe a b = true → callRecLe b c = true → callRecLe a c = true := by
  intro a b c hab hbc
  simp only [callRecLe, decide_eq_true_eq] at *
  rcases hab with h1 | ⟨h1, h2⟩
  · rcases hbc with h3 | ⟨h3, h4⟩
    · exact Or.inl (by omega)
    · exact Or.inl (by omega)
  · rcases hbc with h3 | ⟨h3, h4⟩
    · exact Or.inl (by omega)
    · refine Or.inr ⟨by omega, ?_⟩
      rcases h2 with h2 | ⟨h2, h5⟩
      · rcases h4 with h4 | ⟨h4, h6⟩
        · exact Or.inl (lt_trans h2 h4)
        · exact Or.inl (h4 ▸ h2)
      · rcases h4 with h4 | ⟨h4, h6⟩
        · exact Or.inl (h2 ▸ h4)
        · exact Or.inr ⟨h2.trans h4, by omega⟩

theorem callRecLe_total : ∀ a b : CallRec, (callRecLe a b || callRecLe b a) = true := by
  intro a b
  simp only [callRecLe, Bool.or_eq_true, decide_eq_true_eq]
  rcases Nat.lt_trichotomy a.depth b.depth with h | h | h
  · exact Or.inl (Or.inl h)
  · rcases lt_trichotomy a.file b.file with hf | hf | hf
    · exact Or.inl (Or.inr ⟨h, Or.inl hf⟩)
    · rcases Nat.le_total a.line b.line with hl | hl
      · exact Or.inl (Or.inr ⟨h, Or.inr ⟨hf, hl⟩⟩)
      · exact Or.inr (Or.inr ⟨h.symm, Or.inr ⟨hf.symm, hl⟩⟩)
    · exact Or.inr (Or.inr ⟨h.symm, Or.inl hf⟩)
  · exact Or.inr (Or.inl h)

theorem recursiveCallsCore_spec (oracle : CHItem → List (CHItem × List CHRange))
    (prep : List CHItem) (maxDepth maxPerLevel maxTotal : Nat) :
    (recursiveCallsCore oracle prep maxDepth maxPerLevel maxTotal).1.length ≤ maxTotal ∧
    (∀ x ∈ (recursiveCallsCore oracle prep maxDepth maxPerLevel maxTotal).1,
      1 ≤ x.depth ∧ x.depth ≤ maxDepth) ∧
    (recursiveCallsCore oracle prep maxDepth maxPerLevel maxTotal).2.Nodup ∧
    (recursiveCallsCore oracle prep maxDepth maxPerLevel maxTotal).1.Pairwise
      (fun a b => callRecLe a b = true) := by
  unfold recursiveCallsCore
  by_cases h0 : maxDepth = 0
  · rw [if_pos h0]
    exact ⟨by simp, by simp, by simp, by simp⟩
  · rw [if_neg h0]
    by_cases hp : prep.isEmpty = true
    · rw [if_pos hp]
      exact ⟨by simp, by simp, by simp, by simp⟩
    · rw [if_neg hp]
      obtain ⟨⟨hnd, _⟩, new, hcalls, hdepth⟩ :=
        getCallsAtDepth_spec oracle maxDepth maxPerLevel maxTotal maxDepth 0 prep
          ⟨[], [], [], false⟩ (by omega) ⟨List.nodup_nil, by simp⟩
      refine ⟨?_, ?_, hnd, ?_⟩
      · simp [List.length_take]
      · intro x hx
        have hx2 : x ∈ (getCallsAtDepth oracle maxDepth maxPerLevel maxTotal 0 prep
            ⟨[], [], [], false⟩).allCalls := by
          have hsub := List.take_sublist maxTotal
            ((getCallsAtDepth oracle maxDepth maxPerLevel maxTotal 0 prep
              ⟨[], [], [], false⟩).allCalls.mergeSort callRecLe)
          have hmem := hsub.mem hx
          exact (List.mergeSort_perm _ callRecLe).mem_iff.mp hmem
        rw [hcalls] at hx2
        simp at hx2
        have := hdepth x hx2
        omega
      · exact List.Pairwise.sublist (List.take_sublist _ _)
          (List.sorted_mergeSort callRecLe_trans callRecLe_total _)

/-- Claim C2: for every sequence of clangd call-hierarchy responses
(including cyclic call graphs, covered by quantifying over every oracle and
every prepare result) and every requested maximum depth, both
get_incoming_calls and get_outgoing_calls, at the default limits
call_hierarchy_max_per_level = 25 and call_hierarchy_max_calls = 100,
return at most 100 call records, every record's depth lies between 1 and the
requested maximum depth (default 3), no callHierarchy request is issued
twice for the same uri:start-line key within one top-level call (the request
trace has no duplicates), and the returned list is sorted by
(depth, file, line). -/
theorem C2_call_hierarchy_bounds (oracleIn : CHItem → List IncomingCall)
    (oracleOut : CHItem → List OutgoingCall) (prep : List CHItem) (maxDepth : Nat) :
    ((getRecursiveIncomingCalls oracleIn prep maxDepth 25 100).1.length ≤ 100 ∧
     (∀ x ∈ (getRecursiveIncomingCalls oracleIn prep maxDepth 25 100).1,
        1 ≤ x.depth ∧ x.depth ≤ maxDepth) ∧
     (getRecursiveIncomingCalls oracleIn prep maxDepth 25 100).2.Nodup ∧
     (getRecursiveIncomingCalls oracleIn prep maxDepth 25 100).1.Pairwise
       (fun a b => callRecLe a b = true)) ∧
    ((getRecursiveOutgoingCalls oracleOut prep maxDepth 25 100).1.length ≤ 100 ∧
     (∀ x ∈ (getRecursiveOutgoingCalls oracleOut prep maxDepth 25 100).1,
        1 ≤ x.depth ∧ x.depth ≤ maxDepth) ∧
     (getRecursiveOutgoingCalls oracleOut prep maxDepth 25 100).2.Nodup ∧
     (getRecursiveOutgoingCalls oracleOut prep maxDepth 25 100).1.Pairwise
       (fun a b => callRecLe a b = true)) :=
  ⟨recursiveCallsCore_spec _ prep maxDepth 25 100,
   recursiveCallsCore_spec _ prep maxDepth 25 100⟩

/-! ## Claim C8: Content-Length framing round trip

Sources: src/mcp_clangd/lsp_client.py lines 425-433 (LSPClient._send_message:
json.dumps with separators (",", ":"), a Content-Length header carrying
len(content), and UTF-8 encoding of header plus body) and lines 435-500
(LSPClient._read_messages: buffer accumulation, header search, Content-Length
parse, frame extraction, json.loads).

JSON-RPC message objects are modelled by JVal; numbers are restricted to the
integers JSON-RPC messages in this system carry (floating-point JSON numbers
are outside the shallow embedding).  Python strings are lists of characters;
the serializer is a model of json.dumps with its defaults (ensure_ascii=True,
so every non-ASCII character is emitted as a backslash-u escape and the
serialized text is pure ASCII), and the parser is a model of json.loads
restricted to the same grammar (objects, arrays, strings with escapes,
integers, true/false/null, whitespace between tokens). -/

/-- A JSON value as handled by json.dumps/json.loads in the message path. -/
inductive JVal where
  | null
  | bool (b : Bool)
  | int (i : Int)
  | str (s : List Char)
  | arr (xs : List JVal)
  | obj (kvs : List (List Char × JVal))

/-- Lowercase hex digit, as json.dumps emits in backslash-u escapes. -/
def hexLower (n : Nat) : Char :=
  if n < 10 then Char.ofNat (48 + n) else Char.ofNat (87 + n)

/-- One backslash-u escape for a code unit below 0x10000. -/
def uEscape (n : Nat) : List Char :=
  ['\\', 'u', hexLower (n / 4096 % 16), hexLower (n / 256 % 16),
   hexLower (n / 16 % 16), hexLower (n % 16)]

/-- Escape of one character in a JSON string, following json.dumps with
ensure_ascii=True: quote and backslash escaped, the five short control
escapes, printable ASCII kept, every other character as backslash-u escapes
(a surrogate pair for characters beyond 0xFFFF). -/
def escapeChar (c : Char) : List Char :=
  if c = '"' then ['\\', '"']
  else if c = '\\' then ['\\', '\\']
  else if c.toNat = 8 then ['\\', 'b']
  else if c.toNat = 9 then ['\\', 't']
  else if c.toNat = 10 then ['\\', 'n']
  else if c.toNat = 12 then ['\\', 'f']
  else if c.toNat = 13 then ['\\', 'r']
  else if 32 ≤ c.toNat ∧ c.toNat ≤ 126 then [c]
  else if c.toNat < 65536 then uEscape c.toNat
  else uEscape (55296 + (c.toNat - 65536) / 1024) ++ uEscape (56320 + (c.toNat - 65536) % 1024)

/-- Escape of a JSON string body. -/
def escapeStr (s : List Char) : List Char :=
  s.flatMap escapeChar

/-- Decimal digits of a positive natural number. -/
def natDigits : Nat → List Char
  | 0 => []
  | n + 1 => natDigits ((n + 1) / 10) ++ [Char.ofNat (48 + (n + 1) % 10)]
decreasing_by exact Nat.div_lt_self (Nat.succ_pos n) (by omega)

/-- Decimal representation of a natural number (Python repr). -/
def natRepr (n : Nat) : List Char :=
  if n = 0 then ['0'] else natDigits n

/-- Decimal representation of an integer (Python repr). -/
def intRepr : Int → List Char
  | .ofNat n => natRepr n
  | .negSucc n => '-' :: natRepr (n + 1)

mutual
/-- Model of json.dumps(message, separators=(",", ":")) with its default
ensure_ascii=True. -/
def dumps : JVal → List Char
  | .null => "null".data
  | .bool true => "true".data
  | .bool false => "false".data
  | .int i => intRepr i
  | .str s => '"' :: (escapeStr s ++ ['"'])
  | .arr [] => "[]".data
  | .arr (x :: xs) => '[' :: (dumps x ++ dumpsItems xs ++ [']'])
  | .obj [] => "{}".data
  | .obj (kv :: kvs) =>
      '{' :: ('"' :: (escapeStr kv.1 ++ ['"']) ++ ':' :: dumps kv.2 ++ dumpsMembers kvs ++ ['}'])

/-- Remaining array items, each preceded by the item separator. -/
def dumpsItems : List JVal → List Char
  | [] => []
  | x :: xs => ',' :: (dumps x ++ dumpsItems xs)

/-- Remaining object members, each preceded by the item separator. -/
def dumpsMembers : List (List Char × JVal) → List Char
  | [] => []
  | kv :: kvs => ',' :: ('"' :: (escapeStr kv.1 ++ ['"']) ++ ':' :: dumps kv.2 ++ dumpsMembers kvs)
end

/-- Whitespace characters json.loads skips between tokens. -/
def isJsonWs (c : Char) : Bool :=
  c = ' ' || c = '\t' || c = '\n' || c = '\r'

/-- Skip of inter-token whitespace. -/
def skipWs (s : List Char) : List Char :=
  s.dropWhile isJsonWs

/-- ASCII decimal digit test. -/
def isDigitChar (c : Char) : Bool :=
  48 ≤ c.toNat ∧ c.toNat ≤ 57

/-- Value of a digit string (most significant first). -/
def digitsToNat (ds : List Char) : Nat :=
  ds.foldl (fun a c => a * 10 + (c.toNat - 48)) 0

/-- Parse of a run of decimal digits at the head of the input. -/
def parseNatPart (s : List Char) : Option (Nat × List Char) :=
  let ds := s.takeWhile isDigitChar
  if ds.isEmpty then Option.none
  else some (digitsToNat ds, s.drop ds.length)

/-- Decodings of the single-character string escapes json.loads accepts. -/
def escDecode (e : Char) : Option Char :=
  if e = '"' then some '"'
  else if e = '\\' then some '\\'
  else if e = '/' then some '/'
  else if e = 'b' then some (Char.ofNat 8)
  else if e = 'f' then some (Char.ofNat 12)
  else if e = 'n' then some (Char.ofNat 10)
  else if e = 'r' then some (Char.ofNat 13)
  else if e = 't' then some (Char.ofNat 9)
  else Option.none

mutual
/-- Model of the JSON string scanner of json.loads, after the opening quote:
collect characters up to the closing quote, decoding escapes.  A surrogate
pair of backslash-u escapes combines into one character; a lone surrogate
(which Lean characters cannot carry, and json.dumps never emits) fails. -/
def parseStrBody : List Char → Option (List Char × List Char)
  | [] => Option.none
  | c :: rest =>
    if c = '"' then some ([], rest)
    else if c = '\\' then parseEsc rest
    else
      match parseStrBody rest with
      | some p => some (c :: p.1, p.2)
      | Option.none => Option.none
termination_by l => l.length
decreasing_by all_goals (simp; try omega)

/-- Decoding of one escape sequence (input starts after the backslash). -/
def parseEsc : List Char → Option (List Char × List Char)
  | [] => Option.none
  | e :: rest2 =>
    if e = 'u' then
      match rest2 with
      | h1 :: h2 :: h3 :: h4 :: rest3 =>
        match hexVal h1, hexVal h2, hexVal h3, hexVal h4 with
        | some x1, some x2, some x3, some x4 =>
          if 55296 ≤ 4096 * x1 + 256 * x2 + 16 * x3 + x4 ∧
              4096 * x1 + 256 * x2 + 16 * x3 + x4 < 56320 then
            match rest3 with
            | b1 :: u2 :: g1 :: g2 :: g3 :: g4 :: rest5 =>
              if b1 = '\\' ∧ u2 = 'u' then
                match hexVal g1, hexVal g2, hexVal g3, hexVal g4 with
                | some y1, some y2, some y3, some y4 =>
                  if 56320 ≤ 4096 * y1 + 256 * y2 + 16 * y3 + y4 ∧
                      4096 * y1 + 256 * y2 + 16 * y3 + y4 < 57344 then
                    match parseStrBody rest5 with
                    | some p => some (Char.ofNat (65536 +
                        (4096 * x1 + 256 * x2 + 16 * x3 + x4 - 55296) * 1024 +
                        (4096 * y1 + 256 * y2 + 16 * y3 + y4 - 56320)) :: p.1, p.2)
                    | Option.none => Option.none
                  else Option.none
                | _, _, _, _ => Option.none
              else Option.none
            | _ => Option.none
          else if 56320 ≤ 4096 * x1 + 256 * x2 + 16 * x3 + x4 ∧
              4096 * x1 + 256 * x2 + 16 * x3 + x4 < 57344 then Option.none
          else
            match parseStrBody rest3 with
            | some p => some (Char.ofNat (4096 * x1 + 256 * x2 + 16 * x3 + x4) :: p.1, p.2)
            | Option.none => Option.none
        | _, _, _, _ => Option.none
      | _ => Option.none
    else
      match escDecode e with
      | some c2 =>
        match parseStrBody rest2 with
        | some p => some (c2 :: p.1, p.2)
        | Option.none => Option.none
      | Option.none => Option.none
termination_by l => l.length
decreasing_by all_goals (simp; try omega)
end

mutual
/-- Model of the json.loads value scanner on the grammar json.dumps emits:
strings, objects, arrays, the three literals, and integer numbers.  The fuel
argument bounds the nesting depth; every theorem instantiates it large
enough, mirroring the recursive descent of the Python scanner. -/
def parseVal : Nat → List Char → Option (JVal × List Char)
  | 0, _ => Option.none
  | f + 1, s =>
    match skipWs s with
    | [] => Option.none
    | c :: rest =>
      if c = '"' then
        match parseStrBody rest with
        | some p => some (.str p.1, p.2)
        | Option.none => Option.none
      else if c = '[' then
        match skipWs rest with
        | c2 :: rest2 =>
          if c2 = ']' then some (.arr [], rest2)
          else
            match parseArrItems f (skipWs rest) with
            | some p => some (.arr p.1, p.2)
            | Option.none => Option.none
        | [] => Option.none
      else if c = '{' then
        match skipWs rest with
        | c2 :: rest2 =>
          if c2 = '}' then some (.obj [], rest2)
          else
            match parseObjItems f (skipWs rest) with
            | some p => some (.obj p.1, p.2)
            | Option.none => Option.none
        | [] => Option.none
      else if c = 't' then
        match rest with
        | r1 :: r2 :: r3 :: rest2 =>
          if r1 = 'r' ∧ r2 = 'u' ∧ r3 = 'e' then some (.bool true, rest2) else Option.none
        | _ => Option.none
      else if c = 'f' then
        match rest with
        | r1 :: r2 :: r3 :: r4 :: rest2 =>
          if r1 = 'a' ∧ r2 = 'l' ∧ r3 = 's' ∧ r4 = 'e' then some (.bool false, rest2)
          else Option.none
        | _ => Option.none
      else if c = 'n' then
        match rest with
        | r1 :: r2 :: r3 :: rest2 =>
          if r1 = 'u' ∧ r2 = 'l' ∧ r3 = 'l' then some (.null, rest2) else Option.none
        | _ => Option.none
      else if c = '-' then
        match parseNatPart rest with
        | some p => some (.int (-(p.1 : Int)), p.2)
        | Option.none => Option.none
      else if isDigitChar c then
        match parseNatPart (c :: rest) with
        | some p => some (.int (p.1 : Int), p.2)
        | Option.none => Option.none
      else Option.none
termination_by f _ => (f, 0)

/-- Items of a nonempty array, consuming the closing bracket. -/
def parseArrItems : Nat → List Char → Option (List JVal × List Char)
  | 0, _ => Option.none
  | f + 1, s =>
    match parseVal (f + 1) s with
    | some (v, r) =>
      match skipWs r with
      | c :: rest =>
        if c = ',' then
          match parseArrItems f rest with
          | some p => some (v :: p.1, p.2)
          | Option.none => Option.none
        else if c = ']' then some ([v], rest)
        else Option.none
      | [] => Option.none
    | Option.none => Option.none
termination_by f _ => (f, 1)

/-- Members of a nonempty object, consuming the closing brace. -/
def parseObjItems : Nat → List Char → Option (List (List Char × JVal) × List Char)
  | 0, _ => Option.none
  | f + 1, s =>
    match skipWs s with
    | c :: rest =>
      if c = '"' then
        match parseStrBody rest with
        | some (k, r) =>
          match skipWs r with
          | c2 :: rest2 =>
            if c2 = ':' then
              match parseVal (f + 1) rest2 with
              | some (v, r2) =>
                match skipWs r2 with
                | c3 :: rest3 =>
                  if c3 = ',' then
                    match parseObjItems f rest3 with
                    | some p => some ((k, v) :: p.1, p.2)
                    | Option.none => Option.none
                  else if c3 = '}' then some ([(k, v)], rest3)
                  else Option.none
                | [] => Option.none
              | Option.none => Option.none
            else Option.none
          | [] => Option.none
        | Option.none => Option.none
      else Option.none
    | [] => Option.none
termination_by f _ => (f, 1)
end

theorem hexVal_hexLower (n : Nat) (h : n < 16) : hexVal (hexLower n) = some n := by
  unfold hexLower hexVal
  by_cases h10 : n < 10
  · rw [if_pos h10, char_toNat_ofNat _ (by omega), if_pos (by omega)]
    congr 1
    omega
  · rw [if_neg h10, char_toNat_ofNat _ (by omega), if_neg (by omega), if_pos (by omega)]
    congr 1
    omega

theorem hexLower_toNat (n : Nat) (h : n < 16) :
    (hexLower n).toNat = if n < 10 then 48 + n else 87 + n := by
  unfold hexLower
  by_cases h10 : n < 10
  · rw [if_pos h10, if_pos h10, char_toNat_ofNat _ (by omega)]
  · rw [if_neg h10, if_neg h10, char_toNat_ofNat _ (by omega)]

theorem hexLower_ascii (n : Nat) (h : n < 16) : (hexLower n).toNat < 128 := by
  rw [hexLower_toNat n h]
  split <;> omega

theorem uEscape_ascii (n : Nat) : ∀ c ∈ uEscape n, c.toNat < 128 := by
  intro c hc
  unfold uEscape at hc
  simp at hc
  rcases hc with rfl | rfl | rfl | rfl | rfl | rfl
  · decide
  · decide
  · exact hexLower_ascii _ (Nat.mod_lt _ (by omega))
  · exact hexLower_ascii _ (Nat.mod_lt _ (by omega))
  · exact hexLower_ascii _ (Nat.mod_lt _ (by omega))
  · exact hexLower_ascii _ (Nat.mod_lt _ (by omega))

theorem escapeChar_ascii (c : Char) : ∀ x ∈ escapeChar c, x.toNat < 128 := by
  intro x hx
  unfold escapeChar at hx
  split at hx
  · simp at hx; rcases hx with rfl | rfl <;> decide
  · split at hx
    · simp at hx; rcases hx with rfl | rfl <;> decide
    · split at hx
      · simp at hx; rcases hx with rfl | rfl <;> decide
      · split at hx
        · simp at hx; rcases hx with rfl | rfl <;> decide
        · split at hx
          · simp at hx; rcases hx with rfl | rfl <;> decide
          · split at hx
            · simp at hx; rcases hx with rfl | rfl <;> decide
            · split at hx
              · simp at hx; rcases hx with rfl | rfl <;> decide
              · split at hx
                · next hrange =>
                    simp at hx
                    subst hx
                    omega
                · split at hx
                  · exact uEscape_ascii _ x hx
                  · rcases List.mem_append.mp hx with hx | hx
                    · exact uEscape_ascii _ x hx
                    · exact uEscape_ascii _ x hx

theorem escapeStr_ascii (s : List Char) : ∀ x ∈ escapeStr s, x.toNat < 128 := by
  intro x hx
  rw [escapeStr, List.mem_flatMap] at hx
  obtain ⟨c, _, hxc⟩ := hx
  exact escapeChar_ascii c x hxc

theorem natDigits_digits (n : Nat) : ∀ c ∈ natDigits n, 48 ≤ c.toNat ∧ c.toNat ≤ 57 := by
  induction n using Nat.strong_induction_on with
  | _ n ih =>
    match n with
    | 0 => intro c hc; simp [natDigits] at hc
    | m + 1 =>
      intro c hc
      rw [natDigits] at hc
      rcases List.mem_append.mp hc with hc | hc
      · exact ih ((m + 1) / 10) (Nat.div_lt_self (by omega) (by omega)) c hc
      · rcases List.mem_singleton.mp hc with rfl
        rw [char_toNat_ofNat _ (by omega)]
        omega

theorem natRepr_digits (n : Nat) : ∀ c ∈ natRepr n, 48 ≤ c.toNat ∧ c.toNat ≤ 57 := by
  unfold natRepr
  split
  · intro c hc; rcases List.mem_singleton.mp hc with rfl; decide
  · exact natDigits_digits n

theorem intRepr_ascii (i : Int) : ∀ c ∈ intRepr i, c.toNat < 128 := by
  intro c hc
  cases i with
  | ofNat n =>
    have := natRepr_digits n c hc
    omega
  | negSucc n =>
    rcases List.mem_cons.mp hc with rfl | hc
    · decide
    · have := natRepr_digits (n + 1) c hc
      omega

mutual
theorem dumps_ascii : ∀ (v : JVal) (c : Char), c ∈ dumps v → c.toNat < 128
  | .null, c, hc => by rw [dumps] at hc; fin_cases hc <;> decide
  | .bool true, c, hc => by rw [dumps] at hc; fin_cases hc <;> decide
  | .bool false, c, hc => by rw [dumps] at hc; fin_cases hc <;> decide
  | .int i, c, hc => by rw [dumps] at hc; exact intRepr_ascii i c hc
  | .str s, c, hc => by
      rw [dumps] at hc
      rcases List.mem_cons.mp hc with rfl | hc
      · decide
      · rcases List.mem_append.mp hc with hc | hc
        · exact escapeStr_ascii s c hc
        · rcases List.mem_singleton.mp hc with rfl; decide
  | .arr [], c, hc => by rw [dumps] at hc; fin_cases hc <;> decide
  | .arr (x :: xs), c, hc => by
      rw [dumps] at hc
      rcases List.mem_cons.mp hc with rfl | hc
      · decide
      · rcases List.mem_append.mp hc with hc | hc
        · rcases List.mem_append.mp hc with hc | hc
          · exact dumps_ascii x c hc
          · exact dumpsItems_ascii xs c hc
        · rcases List.mem_singleton.mp hc with rfl; decide
  | .obj [], c, hc => by rw [dumps] at hc; fin_cases hc <;> decide
  | .obj (kv :: kvs), c, hc => by
      rw [dumps] at hc
      simp only [List.mem_cons, List.mem_append, List.mem_singleton, List.not_mem_nil,
        List.cons_append, List.append_assoc, or_false, false_or] at hc
      rcases hc with rfl | rfl | hc | rfl | rfl | hc | hc | rfl
      · decide
      · decide
      · exact escapeStr_ascii kv.1 c hc
      · decide
      · decide
      · exact dumps_ascii kv.2 c hc
      · exact dumpsMembers_ascii kvs c hc
      · decide

theorem dumpsItems_ascii : ∀ (xs : List JVal) (c : Char), c ∈ dumpsItems xs → c.toNat < 128
  | [], c, hc => by rw [dumpsItems] at hc; simp at hc
  | x :: xs, c, hc => by
      rw [dumpsItems] at hc
      rcases List.mem_cons.mp hc with rfl | hc
      · decide
      · rcases List.mem_append.mp hc with hc | hc
        · exact dumps_ascii x c hc
        · exact dumpsItems_ascii xs c hc

theorem dumpsMembers_ascii : ∀ (kvs : List (List Char × JVal)) (c : Char),
    c ∈ dumpsMembers kvs → c.toNat < 128
  | [], c, hc => by rw [dumpsMembers] at hc; simp at hc
  | kv :: kvs, c, hc => by
      rw [dumpsMembers] at hc
      simp only [List.mem_cons, List.mem_append, List.mem_singleton, List.not_mem_nil,
        List.cons_append, List.append_assoc, or_false, false_or] at hc
      rcases hc with rfl | rfl | hc | rfl | rfl | hc | hc
      · decide
      · decide
      · exact escapeStr_ascii kv.1 c hc
      · decide
      · decide
      · exact dumps_ascii kv.2 c hc
      · exact dumpsMembers_ascii kvs c hc
end

theorem dumps_ne_nil (v : JVal) : dumps v ≠ [] := by
  cases v with
  | null => rw [dumps]; simp
  | bool b => cases b <;> (rw [dumps]; simp)
  | int i =>
    rw [dumps]
    cases i with
    | ofNat n =>
      show natRepr n ≠ []
      unfold natRepr
      split
      · simp
      · next h =>
        match n, h with
        | m + 1, _ => rw [natDigits]; simp
    | negSucc n => simp [intRepr]
  | str s => rw [dumps]; simp
  | arr xs => cases xs <;> (rw [dumps]; simp)
  | obj kvs => cases kvs <;> (rw [dumps]; simp)

theorem char_valid_ranges (c : Char) :
    c.toNat < 55296 ∨ (57344 ≤ c.toNat ∧ c.toNat < 1114112) := by
  have hv := c.valid
  rcases hv with h | ⟨h1, h2⟩
  · left
    exact h
  · right
    exact ⟨h1, h2⟩

theorem parseStrBody_cons (c : Char) (rest : List Char) :
    parseStrBody (c :: rest) =
      (if c = '"' then some ([], rest)
       else if c = '\\' then parseEsc rest
       else
         match parseStrBody rest with
         | some p => some (c :: p.1, p.2)
         | Option.none => Option.none) := by
  rw [parseStrBody]

theorem uEscape_parse (n : Nat) (hn : n < 65536)
    (hs1 : ¬ (55296 ≤ n ∧ n < 56320)) (hs2 : ¬ (56320 ≤ n ∧ n < 57344))
    (t s2 r2 : List Char) (ht : parseStrBody t = some (s2, r2)) :
    parseEsc ('u' :: hexLower (n / 4096 % 16) :: hexLower (n / 256 % 16) ::
        hexLower (n / 16 % 16) :: hexLower (n % 16) :: t) =
      some (Char.ofNat n :: s2, r2) := by
  rw [parseEsc]
  rw [if_pos rfl]
  rw [hexVal_hexLower _ (Nat.mod_lt _ (by omega)), hexVal_hexLower _ (Nat.mod_lt _ (by omega)),
      hexVal_hexLower _ (Nat.mod_lt _ (by omega)), hexVal_hexLower _ (Nat.mod_lt _ (by omega))]
  have hrecon : 4096 * (n / 4096 % 16) + 256 * (n / 256 % 16) + 16 * (n / 16 % 16) + n % 16 = n := by
    omega
  simp only [hrecon]
  rw [if_neg hs1, if_neg hs2, ht]

theorem uEscapePair_parse (tval : Nat) (hlo : 65536 ≤ tval) (hhi : tval < 1114112)
    (t s2 r2 : List Char) (ht : parseStrBody t = some (s2, r2)) :
    parseEsc ('u' :: hexLower ((55296 + (tval - 65536) / 1024) / 4096 % 16) ::
        hexLower ((55296 + (tval - 65536) / 1024) / 256 % 16) ::
        hexLower ((55296 + (tval - 65536) / 1024) / 16 % 16) ::
        hexLower ((55296 + (tval - 65536) / 1024) % 16) ::
        (uEscape (56320 + (tval - 65536) % 1024) ++ t)) =
      some (Char.ofNat tval :: s2, r2) := by
  rw [parseEsc, if_pos rfl]
  rw [hexVal_hexLower _ (Nat.mod_lt _ (by omega)), hexVal_hexLower _ (Nat.mod_lt _ (by omega)),
      hexVal_hexLower _ (Nat.mod_lt _ (by omega)), hexVal_hexLower _ (Nat.mod_lt _ (by omega))]
  have hq : (tval - 65536) / 1024 < 1024 := by omega
  have hrecon : 4096 * ((55296 + (tval - 65536) / 1024) / 4096 % 16) +
      256 * ((55296 + (tval - 65536) / 1024) / 256 % 16) +
      16 * ((55296 + (tval - 65536) / 1024) / 16 % 16) +
      (55296 + (tval - 65536) / 1024) % 16 = 55296 + (tval - 65536) / 1024 := by
    omega
  simp only [hrecon]
  rw [if_pos (by omega)]
  rw [show uEscape (56320 + (tval - 65536) % 1024) ++ t =
      '\\' :: 'u' :: hexLower ((56320 + (tval - 65536) % 1024) / 4096 % 16) ::
        hexLower ((56320 + (tval - 65536) % 1024) / 256 % 16) ::
        hexLower ((56320 + (tval - 65536) % 1024) / 16 % 16) ::
        hexLower ((56320 + (tval - 65536) % 1024) % 16) :: t from rfl]
  simp only []
  rw [if_pos (by constructor <;> trivial)]
  rw [hexVal_hexLower _ (Nat.mod_lt _ (by omega)), hexVal_hexLower _ (Nat.mod_lt _ (by omega)),
      hexVal_hexLower _ (Nat.mod_lt _ (by omega)), hexVal_hexLower _ (Nat.mod_lt _ (by omega))]
  have hrecon2 : 4096 * ((56320 + (tval - 65536) % 1024) / 4096 % 16) +
      256 * ((56320 + (tval - 65536) % 1024) / 256 % 16) +
      16 * ((56320 + (tval - 65536) % 1024) / 16 % 16) +
      (56320 + (tval - 65536) % 1024) % 16 = 56320 + (tval - 65536) % 1024 := by
    omega
  simp only [hrecon2]
  rw [if_pos (by omega), ht]
  have hcomb : 65536 + (55296 + (tval - 65536) / 1024 - 55296) * 1024 +
      (56320 + (tval - 65536) % 1024 - 56320) = tval := by
    omega
  rw [hcomb]

theorem escapeChar_parse (c : Char) (t s2 r2 : List Char)
    (ht : parseStrBody t = some (s2, r2)) :
    parseStrBody (escapeChar c ++ t) = some (c :: s2, r2) := by
  unfold escapeChar
  by_cases h1 : c = '"'
  · subst h1
    rw [if_pos rfl, show (['\\', '"'] : List Char) ++ t = '\\' :: '"' :: t from rfl,
        parseStrBody_cons, if_neg (by decide), if_pos rfl, parseEsc.eq_def]
    simp [escDecode, ht]
  · rw [if_neg h1]
    by_cases h2 : c = '\\'
    · subst h2
      rw [if_pos rfl, show (['\\', '\\'] : List Char) ++ t = '\\' :: '\\' :: t from rfl,
          parseStrBody_cons, if_neg (by decide), if_pos rfl, parseEsc.eq_def]
      simp [escDecode, ht]
    · rw [if_neg h2]
      by_cases h3 : c.toNat = 8
      · rw [if_pos h3, show (['\\', 'b'] : List Char) ++ t = '\\' :: 'b' :: t from rfl,
            parseStrBody_cons, if_neg (by decide), if_pos rfl, parseEsc.eq_def,
            show c = Char.ofNat 8 from by rw [← h3, Char.ofNat_toNat]]
        simp [escDecode, ht]
      · rw [if_neg h3]
        by_cases h4 : c.toNat = 9
        · rw [if_pos h4, show (['\\', 't'] : List Char) ++ t = '\\' :: 't' :: t from rfl,
              parseStrBody_cons, if_neg (by decide), if_pos rfl, parseEsc.eq_def,
              show c = Char.ofNat 9 from by rw [← h4, Char.ofNat_toNat]]
          simp [escDecode, ht]
        · rw [if_neg h4]
          by_cases h5 : c.toNat = 10
          · rw [if_pos h5, show (['\\', 'n'] : List Char) ++ t = '\\' :: 'n' :: t from rfl,
                parseStrBody_cons, if_neg (by decide), if_pos rfl, parseEsc.eq_def,
                show c = Char.ofNat 10 from by rw [← h5, Char.ofNat_toNat]]
            simp [escDecode, ht]
          · rw [if_neg h5]
            by_cases h6 : c.toNat = 12
            · rw [if_pos h6, show (['\\', 'f'] : List Char) ++ t = '\\' :: 'f' :: t from rfl,
                  parseStrBody_cons, if_neg (by decide), if_pos rfl, parseEsc.eq_def,
                  show c = Char.ofNat 12 from by rw [← h6, Char.ofNat_toNat]]
              simp [escDecode, ht]
            · rw [if_neg h6]
              by_cases h7 : c.toNat = 13
              · rw [if_pos h7, show (['\\', 'r'] : List Char) ++ t = '\\' :: 'r' :: t from rfl,
                    parseStrBody_cons, if_neg (by decide), if_pos rfl, parseEsc.eq_def,
                    show c = Char.ofNat 13 from by rw [← h7, Char.ofNat_toNat]]
                simp [escDecode, ht]
              · rw [if_neg h7]
                by_cases h8 : 32 ≤ c.toNat ∧ c.toNat ≤ 126
                · rw [if_pos h8, show [c] ++ t = c :: t from rfl, parseStrBody_cons,
                      if_neg h1, if_neg h2, ht]
                · rw [if_neg h8]
                  by_cases h9 : c.toNat < 65536
                  · rw [if_pos h9]
                    have hval := char_valid_ranges c
                    rw [show uEscape c.toNat ++ t =
                        '\\' :: 'u' :: hexLower (c.toNat / 4096 % 16) ::
                          hexLower (c.toNat / 256 % 16) :: hexLower (c.toNat / 16 % 16) ::
                          hexLower (c.toNat % 16) :: t from rfl,
                      parseStrBody_cons, if_neg (by decide), if_pos rfl]
                    rw [uEscape_parse c.toNat h9 (by omega) (by omega) t s2 r2 ht,
                        Char.ofNat_toNat]
                  · rw [if_neg h9]
                    have hval := char_valid_ranges c
                    rw [show (uEscape (55296 + (c.toNat - 65536) / 1024) ++
                          uEscape (56320 + (c.toNat - 65536) % 1024)) ++ t =
                        '\\' :: 'u' :: hexLower ((55296 + (c.toNat - 65536) / 1024) / 4096 % 16) ::
                          hexLower ((55296 + (c.toNat - 65536) / 1024) / 256 % 16) ::
                          hexLower ((55296 + (c.toNat - 65536) / 1024) / 16 % 16) ::
                          hexLower ((55296 + (c.toNat - 65536) / 1024) % 16) ::
                          (uEscape (56320 + (c.toNat - 65536) % 1024) ++ t) from by
                        simp [uEscape]]
                    rw [parseStrBody_cons, if_neg (by decide), if_pos rfl]
                    rw [uEscapePair_parse c.toNat (by omega) (by omega) t s2 r2 ht,
                        Char.ofNat_toNat]

theorem escapeStr_parse (s : List Char) : ∀ rest : List Char,
    parseStrBody (escapeStr s ++ '"' :: rest) = some (s, rest) := by
  induction s with
  | nil =>
    intro rest
    rw [escapeStr, List.flatMap_nil, List.nil_append, parseStrBody_cons, if_pos rfl]
  | cons c s ih =>
    intro rest
    rw [escapeStr, List.flatMap_cons, List.append_assoc]
    exact escapeChar_parse c _ (c :: s).tail rest (ih rest)

theorem digitsToNat_append_digit (ds : List Char) (c : Char) :
    digitsToNat (ds ++ [c]) = digitsToNat ds * 10 + (c.toNat - 48) := by
  unfold digitsToNat
  rw [List.foldl_append]
  rfl

theorem digitsToNat_natDigits (n : Nat) : digitsToNat (natDigits n) = n := by
  induction n using Nat.strong_induction_on with
  | _ n ih =>
    match n with
    | 0 => rw [natDigits]; rfl
    | m + 1 =>
      rw [natDigits, digitsToNat_append_digit, ih ((m + 1) / 10) (Nat.div_lt_self (by omega) (by omega)),
          char_toNat_ofNat _ (by omega)]
      omega

theorem digitsToNat_natRepr (n : Nat) : digitsToNat (natRepr n) = n := by
  unfold natRepr
  split
  · next h => rw [h]; rfl
  · exact digitsToNat_natDigits n

/-- The tail that follows a serialized integer never starts with a digit in
the grammar json.dumps emits (it is a separator, a closing bracket, or the
end of the body). -/
def headNotDigit (rest : List Char) : Prop :=
  ∀ c, rest.head? = some c → isDigitChar c = false

theorem parseNatPart_natRepr (n : Nat) (rest : List Char) (hrest : headNotDigit rest) :
    parseNatPart (natRepr n ++ rest) = some (n, rest) := by
  have hdigits : ∀ c ∈ natRepr n, isDigitChar c = true := by
    intro c hc
    have := natRepr_digits n c hc
    simp [isDigitChar]
    omega
  have htake : (natRepr n ++ rest).takeWhile isDigitChar = natRepr n := by
    rw [List.takeWhile_append, takeWhile_all _ _ hdigits, if_pos rfl]
    cases rest with
    | nil => simp
    | cons c l =>
      rw [List.takeWhile_cons_of_neg (by simp [hrest c rfl])]
      simp
  have hne : natRepr n ≠ [] := by
    unfold natRepr
    split
    · simp
    · next h =>
      match n, h with
      | m + 1, _ => rw [natDigits]; simp
  unfold parseNatPart
  rw [htake]
  rw [if_neg (by simp [hne])]
  rw [digitsToNat_natRepr]
  rw [List.drop_append_of_le_length (le_refl _), List.drop_length, List.nil_append]

mutual
/-- Fuel sufficient for parseVal to scan one serialized value. -/
def jfuel : JVal → Nat
  | .null => 1
  | .bool _ => 1
  | .int _ => 1
  | .str _ => 1
  | .arr xs => jfuelItems xs + 1
  | .obj kvs => jfuelMembers kvs + 1

/-- Fuel sufficient for parseArrItems to scan serialized items. -/
def jfuelItems : List JVal → Nat
  | [] => 1
  | x :: xs => max (jfuel x) (jfuelItems xs + 1)

/-- Fuel sufficient for parseObjItems to scan serialized members. -/
def jfuelMembers : List (List Char × JVal) → Nat
  | [] => 1
  | kv :: kvs => max (jfuel kv.2) (jfuelMembers kvs + 1)
end

theorem skipWs_not_ws (c : Char) (l : List Char) (h : isJsonWs c = false) :
    skipWs (c :: l) = c :: l := by
  rw [skipWs, List.dropWhile_cons_of_neg (by simp [h])]

theorem jfuel_pos (v : JVal) : 1 ≤ jfuel v := by
  cases v <;> simp [jfuel]

theorem jfuelItems_pos (xs : List JVal) : 1 ≤ jfuelItems xs := by
  cases xs with
  | nil => simp [jfuelItems]
  | cons x xs =>
    have := jfuel_pos x
    simp [jfuelItems]

theorem jfuelMembers_pos (kvs : List (List Char × JVal)) : 1 ≤ jfuelMembers kvs := by
  cases kvs with
  | nil => simp [jfuelMembers]
  | cons kv kvs =>
    have := jfuel_pos kv.2
    simp [jfuelMembers]

theorem digit_head_facts (c : Char) (h : 48 ≤ c.toNat ∧ c.toNat ≤ 57) :
    c ≠ '"' ∧ c ≠ '[' ∧ c ≠ '{' ∧ c ≠ 't' ∧ c ≠ 'f' ∧ c ≠ 'n' ∧ c ≠ '-' ∧
    isDigitChar c = true ∧ isJsonWs c = false := by
  have e1 : ('"' : Char).toNat = 34 := rfl
  have e2 : ('[' : Char).toNat = 91 := rfl
  have e3 : ('{' : Char).toNat = 123 := rfl
  have e4 : ('t' : Char).toNat = 116 := rfl
  have e5 : ('f' : Char).toNat = 102 := rfl
  have e6 : ('n' : Char).toNat = 110 := rfl
  have e7 : ('-' : Char).toNat = 45 := rfl
  have e8 : (' ' : Char).toNat = 32 := rfl
  have e9 : ('\t' : Char).toNat = 9 := rfl
  have e10 : ('\n' : Char).toNat = 10 := rfl
  have e11 : ('\r' : Char).toNat = 13 := rfl
  refine ⟨char_ne_of_toNat_ne (by omega), char_ne_of_toNat_ne (by omega),
    char_ne_of_toNat_ne (by omega), char_ne_of_toNat_ne (by omega),
    char_ne_of_toNat_ne (by omega), char_ne_of_toNat_ne (by omega),
    char_ne_of_toNat_ne (by omega), by simp [isDigitChar]; omega, ?_⟩
  unfold isJsonWs
  simp [char_ne_of_toNat_ne (show c.toNat ≠ (' ' : Char).toNat by omega),
    char_ne_of_toNat_ne (show c.toNat ≠ ('\t' : Char).toNat by omega),
    char_ne_of_toNat_ne (show c.toNat ≠ ('\n' : Char).toNat by omega),
    char_ne_of_toNat_ne (show c.toNat ≠ ('\r' : Char).toNat by omega)]

theorem headNotDigit_cons (c : Char) (h : isDigitChar c = false) (l : List Char) :
    headNotDigit (c :: l) := by
  intro d hd
  rw [List.head?_cons] at hd
  cases hd
  exact h

theorem natRepr_head (n : Nat) :
    ∃ c cs, natRepr n = c :: cs ∧ 48 ≤ c.toNat ∧ c.toNat ≤ 57 := by
  cases h : natRepr n with
  | nil =>
    exfalso
    unfold natRepr at h
    split at h
    · simp at h
    · next hne =>
      match n, hne with
      | m + 1, _ => rw [natDigits] at h; simp at h
  | cons c cs =>
    refine ⟨c, cs, rfl, ?_⟩
    have := natRepr_digits n c (by rw [h]; simp)
    exact this

theorem dumps_head (v : JVal) :
    ∃ c cs, dumps v = c :: cs ∧ isJsonWs c = false ∧ c ≠ ']' ∧ c ≠ '}' := by
  cases v with
  | null => exact ⟨'n', _, by rw [dumps], by decide, by decide, by decide⟩
  | bool b =>
    cases b
    · exact ⟨'f', _, by rw [dumps], by decide, by decide, by decide⟩
    · exact ⟨'t', _, by rw [dumps], by decide, by decide, by decide⟩
  | int i =>
    cases i with
    | ofNat n =>
      obtain ⟨c, cs, hc, hlo, hhi⟩ := natRepr_head n
      refine ⟨c, cs, by rw [dumps]; exact hc, ?_, ?_, ?_⟩
      · exact (digit_head_facts c ⟨hlo, hhi⟩).2.2.2.2.2.2.2.2
      · exact char_ne_of_toNat_ne (by have : (']' : Char).toNat = 93 := rfl; omega)
      · exact char_ne_of_toNat_ne (by have : ('}' : Char).toNat = 125 := rfl; omega)
    | negSucc n =>
      exact ⟨'-', _, by rw [dumps]; rfl, by decide, by decide, by decide⟩
  | str s => exact ⟨'"', _, by rw [dumps], by decide, by decide, by decide⟩
  | arr xs =>
    cases xs
    · exact ⟨'[', _, by rw [dumps], by decide, by decide, by decide⟩
    · exact ⟨'[', _, by rw [dumps], by decide, by decide, by decide⟩
  | obj kvs =>
    cases kvs
    · exact ⟨'{', _, by rw [dumps], by decide, by decide, by decide⟩
    · exact ⟨'{', _, by rw [dumps], by decide, by decide, by decide⟩

mutual
theorem parse_dumps : ∀ (v : JVal) (f : Nat) (rest : List Char),
    jfuel v ≤ f → headNotDigit rest →
    parseVal f (dumps v ++ rest) = some (v, rest)
  | .null, f, rest, hf, _ => by
      match f, hf with
      | g + 1, _ =>
        rw [show dumps .null ++ rest = 'n' :: 'u' :: 'l' :: 'l' :: rest from rfl,
            parseVal.eq_def]
        rfl
  | .bool true, f, rest, hf, _ => by
      match f, hf with
      | g + 1, _ =>
        rw [show dumps (.bool true) ++ rest = 't' :: 'r' :: 'u' :: 'e' :: rest from rfl,
            parseVal.eq_def]
        rfl
  | .bool false, f, rest, hf, _ => by
      match f, hf with
      | g + 1, _ =>
        rw [show dumps (.bool false) ++ rest = 'f' :: 'a' :: 'l' :: 's' :: 'e' :: rest from rfl,
            parseVal.eq_def]
        rfl
  | .str s, f, rest, hf, _ => by
      match f, hf with
      | g + 1, _ =>
        rw [show dumps (.str s) ++ rest = '"' :: (escapeStr s ++ '"' :: rest) from by
              rw [dumps]; simp,
            parseVal.eq_def]
        show (match parseStrBody (escapeStr s ++ '"' :: rest) with
              | some p => some (JVal.str p.1, p.2)
              | Option.none => Option.none) = some (JVal.str s, rest)
        rw [escapeStr_parse s rest]
  | .int (Int.ofNat n), f, rest, hf, hrest => by
      match f, hf with
      | g + 1, _ =>
        obtain ⟨c, cs, hc, hlo, hhi⟩ := natRepr_head n
        obtain ⟨hne1, hne2, hne3, hne4, hne5, hne6, hne7, hdig, hws⟩ :=
          digit_head_facts c ⟨hlo, hhi⟩
        rw [show dumps (.int (Int.ofNat n)) ++ rest = natRepr n ++ rest from by rw [dumps]; rfl,
            hc, List.cons_append, parseVal.eq_def]
        show (match skipWs (c :: (cs ++ rest)) with
              | [] => Option.none
              | c :: rest =>
                if c = '"' then
                  match parseStrBody rest with
                  | some p => some (JVal.str p.1, p.2)
                  | Option.none => Option.none
                else if c = '[' then
                  match skipWs rest with
                  | c2 :: rest2 =>
                    if c2 = ']' then some (.arr [], rest2)
                    else
                      match parseArrItems g (skipWs rest) with
                      | some p => some (.arr p.1, p.2)
                      | Option.none => Option.none
                  | [] => Option.none
                else if c = '{' then
                  match skipWs rest with
                  | c2 :: rest2 =>
                    if c2 = '}' then some (.obj [], rest2)
                    else
                      match parseObjItems g (skipWs rest) with
                      | some p => some (.obj p.1, p.2)
                      | Option.none => Option.none
                  | [] => Option.none
                else if c = 't' then
                  match rest with
                  | r1 :: r2 :: r3 :: rest2 =>
                    if r1 = 'r' ∧ r2 = 'u' ∧ r3 = 'e' then some (.bool true, rest2)
                    else Option.none
                  | _ => Option.none
                else if c = 'f' then
                  match rest with
                  | r1 :: r2 :: r3 :: r4 :: rest2 =>
                    if r1 = 'a' ∧ r2 = 'l' ∧ r3 = 's' ∧ r4 = 'e' then some (.bool false, rest2)
                    else Option.none
                  | _ => Option.none
                else if c = 'n' then
                  match rest with
                  | r1 :: r2 :: r3 :: rest2 =>
                    if r1 = 'u' ∧ r2 = 'l' ∧ r3 = 'l' then some (.null, rest2) else Option.none
                  | _ => Option.none
                else if c = '-' then
                  match parseNatPart rest with
                  | some p => some (.int (-(p.1 : Int)), p.2)
                  | Option.none => Option.none
                else if isDigitChar c then
                  match parseNatPart (c :: rest) with
                  | some p => some (.int (p.1 : Int), p.2)
                  | Option.none => Option.none
                else Option.none) = some (JVal.int (Int.ofNat n), rest)
        rw [skipWs_not_ws _ _ hws]
        show (if c = '"' then
                match parseStrBody (cs ++ rest) with
                | some p => some (JVal.str p.1, p.2)
                | Option.none => Option.none
              else if c = '[' then
                match skipWs (cs ++ rest) with
                | c2 :: rest2 =>
                  if c2 = ']' then some (.arr [], rest2)
                  else
                    match parseArrItems g (skipWs (cs ++ rest)) with
                    | some p => some (.arr p.1, p.2)
                    | Option.none => Option.none
                | [] => Option.none
              else if c = '{' then
                match skipWs (cs ++ rest) with
                | c2 :: rest2 =>
                  if c2 = '}' then some (.obj [], rest2)
                  else
                    match parseObjItems g (skipWs (cs ++ rest)) with
                    | some p => some (.obj p.1, p.2)
                    | Option.none => Option.none
                | [] => Option.none
              else if c = 't' then
                match cs ++ rest with
                | r1 :: r2 :: r3 :: rest2 =>
                  if r1 = 'r' ∧ r2 = 'u' ∧ r3 = 'e' then some (.bool true, rest2)
                  else Option.none
                | _ => Option.none
              else if c = 'f' then
                match cs ++ rest with
                | r1 :: r2 :: r3 :: r4 :: rest2 =>
                  if r1 = 'a' ∧ r2 = 'l' ∧ r3 = 's' ∧ r4 = 'e' then some (.bool false, rest2)
                  else Option.none
                | _ => Option.none
              else if c = 'n' then
                match cs ++ rest with
                | r1 :: r2 :: r3 :: rest2 =>
                  if r1 = 'u' ∧ r2 = 'l' ∧ r3 = 'l' then some (.null, rest2) else Option.none
                | _ => Option.none
              else if c = '-' then
                match parseNatPart (cs ++ rest) with
                | some p => some (.int (-(p.1 : Int)), p.2)
                | Option.none => Option.none
              else if isDigitChar c then
                match parseNatPart (c :: (cs ++ rest)) with
                | some p => some (.int (p.1 : Int), p.2)
                | Option.none => Option.none
              else Option.none) = some (JVal.int (Int.ofNat n), rest)
        rw [if_neg hne1, if_neg hne2, if_neg hne3, if_neg hne4, if_neg hne5, if_neg hne6,
            if_neg hne7, if_pos hdig,
            show c :: (cs ++ rest) = natRepr n ++ rest from by rw [hc]; rfl,
            parseNatPart_natRepr n rest hrest]
        rfl
  | .int (Int.negSucc n), f, rest, hf, hrest => by
      match f, hf with
      | g + 1, _ =>
        rw [show dumps (.int (Int.negSucc n)) ++ rest = '-' :: (natRepr (n + 1) ++ rest) from by
              rw [dumps]; rfl,
            parseVal.eq_def]
        show (match parseNatPart (natRepr (n + 1) ++ rest) with
              | some p => some (JVal.int (-(p.1 : Int)), p.2)
              | Option.none => Option.none) = some (JVal.int (Int.negSucc n), rest)
        rw [parseNatPart_natRepr (n + 1) rest hrest]
        simp [Int.negSucc_eq]
  | .arr [], f, rest, hf, _ => by
      match f, hf with
      | g + 1, _ =>
        rw [show dumps (.arr []) ++ rest = '[' :: ']' :: rest from rfl, parseVal.eq_def]
        rfl
  | .arr (x :: xs), f, rest, hf, hrest => by
      match f, hf with
      | g + 1, hf =>
        have hg : jfuelItems (x :: xs) ≤ g := by
          rw [jfuel] at hf
          omega
        obtain ⟨c, cs, hx, hws, hrb, _⟩ := dumps_head x
        rw [show dumps (.arr (x :: xs)) ++ rest =
              '[' :: (dumps x ++ (dumpsItems xs ++ ']' :: rest)) from by rw [dumps]; simp,
            parseVal.eq_def, hx, List.cons_append]
        show (match skipWs (c :: (cs ++ (dumpsItems xs ++ ']' :: rest))) with
              | c2 :: rest2 =>
                if c2 = ']' then some (JVal.arr [], rest2)
                else
                  match parseArrItems g (skipWs (c :: (cs ++ (dumpsItems xs ++ ']' :: rest)))) with
                  | some p => some (JVal.arr p.1, p.2)
                  | Option.none => Option.none
              | [] => Option.none) = some (JVal.arr (x :: xs), rest)
        rw [skipWs_not_ws _ _ hws]
        show (if c = ']' then some (JVal.arr [], cs ++ (dumpsItems xs ++ ']' :: rest))
              else
                match parseArrItems g (c :: (cs ++ (dumpsItems xs ++ ']' :: rest))) with
                | some p => some (JVal.arr p.1, p.2)
                | Option.none => Option.none) = some (JVal.arr (x :: xs), rest)
        rw [if_neg hrb, ← List.cons_append, ← hx, parseItems_dumps x xs g rest hg hrest]
  | .obj [], f, rest, hf, _ => by
      match f, hf with
      | g + 1, _ =>
        rw [show dumps (.obj []) ++ rest = '{' :: '}' :: rest from rfl, parseVal.eq_def]
        rfl
  | .obj (kv :: kvs), f, rest, hf, hrest => by
      match f, hf with
      | g + 1, hf =>
        have hg : jfuelMembers (kv :: kvs) ≤ g := by
          rw [jfuel] at hf
          omega
        rw [show dumps (.obj (kv :: kvs)) ++ rest =
              '{' :: ('"' :: (escapeStr kv.1 ++ '"' :: ':' ::
                (dumps kv.2 ++ (dumpsMembers kvs ++ '}' :: rest)))) from by
              rw [dumps]; simp,
            parseVal.eq_def]
        show (match parseObjItems g ('"' :: (escapeStr kv.1 ++ '"' :: ':' ::
                (dumps kv.2 ++ (dumpsMembers kvs ++ '}' :: rest)))) with
              | some p => some (JVal.obj p.1, p.2)
              | Option.none => Option.none) = some (JVal.obj (kv :: kvs), rest)
        rw [parseMembers_dumps kv kvs g rest hg hrest]

theorem parseItems_dumps : ∀ (x : JVal) (xs : List JVal) (g : Nat) (rest : List Char),
    jfuelItems (x :: xs) ≤ g → headNotDigit rest →
    parseArrItems g (dumps x ++ (dumpsItems xs ++ ']' :: rest)) = some (x :: xs, rest)
  | x, xs, g, rest, hg, hrest => by
      have hpos : 1 ≤ jfuelItems (x :: xs) := jfuelItems_pos _
      match g, Nat.le_trans hpos hg with
      | g2 + 1, _ =>
        have hfx : jfuel x ≤ g2 + 1 := by
          rw [jfuelItems] at hg
          omega
        have htail : headNotDigit (dumpsItems xs ++ ']' :: rest) := by
          cases xs with
          | nil => exact headNotDigit_cons ']' (by decide) rest
          | cons y ys =>
            rw [dumpsItems, List.cons_append]
            exact headNotDigit_cons ',' (by decide) _
        rw [parseArrItems.eq_def]
        show (match parseVal (g2 + 1) (dumps x ++ (dumpsItems xs ++ ']' :: rest)) with
              | some (v, r) =>
                match skipWs r with
                | c :: rest2 =>
                  if c = ',' then
                    match parseArrItems g2 rest2 with
                    | some p => some (v :: p.1, p.2)
                    | Option.none => Option.none
                  else if c = ']' then some ([v], rest2)
                  else Option.none
                | [] => Option.none
              | Option.none => Option.none) = some (x :: xs, rest)
        rw [parse_dumps x (g2 + 1) (dumpsItems xs ++ ']' :: rest) hfx htail]
        cases xs with
        | nil =>
          rw [show dumpsItems ([] : List JVal) ++ ']' :: rest = ']' :: rest from by
                rw [dumpsItems]; rfl]
          rfl
        | cons y ys =>
          have hgy : jfuelItems (y :: ys) ≤ g2 := by
            rw [jfuelItems] at hg
            omega
          rw [show dumpsItems (y :: ys) ++ ']' :: rest =
                ',' :: (dumps y ++ (dumpsItems ys ++ ']' :: rest)) from by
                rw [dumpsItems]; simp]
          show (match skipWs (',' :: (dumps y ++ (dumpsItems ys ++ ']' :: rest))) with
                | c :: rest2 =>
                  if c = ',' then
                    match parseArrItems g2 rest2 with
                    | some p => some (x :: p.1, p.2)
                    | Option.none => Option.none
                  else if c = ']' then some ([x], rest2)
                  else Option.none
                | [] => Option.none) = some (x :: y :: ys, rest)
          rw [skipWs_not_ws _ _ (by decide)]
          show (match parseArrItems g2 (dumps y ++ (dumpsItems ys ++ ']' :: rest)) with
                | some p => some (x :: p.1, p.2)
                | Option.none => Option.none) = some (x :: y :: ys, rest)
          rw [parseItems_dumps y ys g2 rest hgy hrest]

theorem parseMembers_dumps : ∀ (kv : List Char × JVal) (kvs : List (List Char × JVal))
    (g : Nat) (rest : List Char),
    jfuelMembers (kv :: kvs) ≤ g → headNotDigit rest →
    parseObjItems g ('"' :: (escapeStr kv.1 ++ '"' :: ':' ::
      (dumps kv.2 ++ (dumpsMembers kvs ++ '}' :: rest)))) = some (kv :: kvs, rest)
  | kv, kvs, g, rest, hg, hrest => by
      have hpos : 1 ≤ jfuelMembers (kv :: kvs) := jfuelMembers_pos _
      match g, Nat.le_trans hpos hg with
      | g2 + 1, _ =>
        have hfv : jfuel kv.2 ≤ g2 + 1 := by
          rw [jfuelMembers] at hg
          omega
        have htail : headNotDigit (dumpsMembers kvs ++ '}' :: rest) := by
          cases kvs with
          | nil => exact headNotDigit_cons '}' (by decide) rest
          | cons kv2 kvs2 =>
            rw [dumpsMembers, List.cons_append]
            exact headNotDigit_cons ',' (by decide) _
        rw [parseObjItems.eq_def]
        show (match parseStrBody (escapeStr kv.1 ++ '"' :: ':' ::
                (dumps kv.2 ++ (dumpsMembers kvs ++ '}' :: rest))) with
              | some (k, r) =>
                match skipWs r with
                | c2 :: rest2 =>
                  if c2 = ':' then
                    match parseVal (g2 + 1) rest2 with
                    | some (v, r2) =>
                      match skipWs r2 with
                      | c3 :: rest3 =>
                        if c3 = ',' then
                          match parseObjItems g2 rest3 with
                          | some p => some ((k, v) :: p.1, p.2)
                          | Option.none => Option.none
                        else if c3 = '}' then some ([(k, v)], rest3)
                        else Option.none
                      | [] => Option.none
                    | Option.none => Option.none
                  else Option.none
                | [] => Option.none
              | Option.none => Option.none) = some (kv :: kvs, rest)
        rw [escapeStr_parse kv.1 (':' :: (dumps kv.2 ++ (dumpsMembers kvs ++ '}' :: rest)))]
        show (match skipWs (':' :: (dumps kv.2 ++ (dumpsMembers kvs ++ '}' :: rest))) with
              | c2 :: rest2 =>
                if c2 = ':' then
                  match parseVal (g2 + 1) rest2 with
                  | some (v, r2) =>
                    match skipWs r2 with
                    | c3 :: rest3 =>
                      if c3 = ',' then
                        match parseObjItems g2 rest3 with
                        | some p => some ((kv.1, v) :: p.1, p.2)
                        | Option.none => Option.none
                      else if c3 = '}' then some ([(kv.1, v)], rest3)
                      else Option.none
                    | [] => Option.none
                  | Option.none => Option.none
                else Option.none
              | [] => Option.none) = some (kv :: kvs, rest)
        rw [skipWs_not_ws _ _ (by decide)]
        show (match parseVal (g2 + 1) (dumps kv.2 ++ (dumpsMembers kvs ++ '}' :: rest)) with
              | some (v, r2) =>
                match skipWs r2 with
                | c3 :: rest3 =>
                  if c3 = ',' then
                    match parseObjItems g2 rest3 with
                    | some p => some ((kv.1, v) :: p.1, p.2)
                    | Option.none => Option.none
                  else if c3 = '}' then some ([(kv.1, v)], rest3)
                  else Option.none
                | [] => Option.none
              | Option.none => Option.none) = some (kv :: kvs, rest)
        rw [parse_dumps kv.2 (g2 + 1) (dumpsMembers kvs ++ '}' :: rest) hfv htail]
        cases kvs with
        | nil =>
          rw [show dumpsMembers ([] : List (List Char × JVal)) ++ '}' :: rest = '}' :: rest from by
                rw [dumpsMembers]; rfl]
          rfl
        | cons kv2 kvs2 =>
          have hgy : jfuelMembers (kv2 :: kvs2) ≤ g2 := by
            rw [jfuelMembers] at hg
            omega
          rw [show dumpsMembers (kv2 :: kvs2) ++ '}' :: rest =
                ',' :: ('"' :: (escapeStr kv2.1 ++ '"' :: ':' ::
                  (dumps kv2.2 ++ (dumpsMembers kvs2 ++ '}' :: rest)))) from by
                rw [dumpsMembers]; simp]
          show (match skipWs (',' :: ('"' :: (escapeStr kv2.1 ++ '"' :: ':' ::
                  (dumps kv2.2 ++ (dumpsMembers kvs2 ++ '}' :: rest))))) with
                | c3 :: rest3 =>
                  if c3 = ',' then
                    match parseObjItems g2 rest3 with
                    | some p => some ((kv.1, kv.2) :: p.1, p.2)
                    | Option.none => Option.none
                  else if c3 = '}' then some ([(kv.1, kv.2)], rest3)
                  else Option.none
                | [] => Option.none) = some (kv :: kv2 :: kvs2, rest)
          rw [skipWs_not_ws _ _ (by decide)]
          show (match parseObjItems g2 ('"' :: (escapeStr kv2.1 ++ '"' :: ':' ::
                  (dumps kv2.2 ++ (dumpsMembers kvs2 ++ '}' :: rest)))) with
                | some p => some ((kv.1, kv.2) :: p.1, p.2)
                | Option.none => Option.none) = some (kv :: kv2 :: kvs2, rest)
          rw [parseMembers_dumps kv2 kvs2 g2 rest hgy hrest]
end

mutual
/-- The fuel a serialized value needs is covered by its serialized length. -/
theorem jfuel_le_dumps : ∀ v : JVal, jfuel v ≤ (dumps v).length
  | .null => by rw [jfuel]; simp [dumps]
  | .bool true => by rw [jfuel]; simp [dumps]
  | .bool false => by rw [jfuel]; simp [dumps]
  | .int i => by
      rw [jfuel]
      cases i with
      | ofNat n =>
        obtain ⟨c, cs, hc, _, _⟩ := natRepr_head n
        rw [dumps, intRepr, hc]
        simp
      | negSucc n => rw [dumps, intRepr]; simp
  | .str s => by rw [jfuel]; rw [dumps]; simp
  | .arr [] => by rw [jfuel, jfuelItems]; simp [dumps]
  | .arr (x :: xs) => by
      have h1 := jfuel_le_dumps x
      have h2 := jfuelItems_le_dumps xs
      have h3 : 1 ≤ (dumps x).length := List.length_pos.mpr (dumps_ne_nil x)
      rw [jfuel, jfuelItems, dumps]
      have hm : max (jfuel x) (jfuelItems xs + 1) ≤ (dumps x).length + (dumpsItems xs).length + 1 :=
        max_le (by omega) (by omega)
      simp [List.length_append]
      omega
  | .obj [] => by rw [jfuel, jfuelMembers]; simp [dumps]
  | .obj (kv :: kvs) => by
      have h1 := jfuel_le_dumps kv.2
      have h2 := jfuelMembers_le_dumps kvs
      have h3 : 1 ≤ (dumps kv.2).length := List.length_pos.mpr (dumps_ne_nil kv.2)
      rw [jfuel, jfuelMembers, dumps]
      have hm : max (jfuel kv.2) (jfuelMembers kvs + 1) ≤
          (dumps kv.2).length + (dumpsMembers kvs).length + 1 :=
        max_le (by omega) (by omega)
      simp [List.length_append]
      omega

theorem jfuelItems_le_dumps : ∀ xs : List JVal, jfuelItems xs ≤ (dumpsItems xs).length + 1
  | [] => by rw [jfuelItems, dumpsItems]; simp
  | x :: xs => by
      have h1 := jfuel_le_dumps x
      have h2 := jfuelItems_le_dumps xs
      have h3 : 1 ≤ (dumps x).length := List.length_pos.mpr (dumps_ne_nil x)
      rw [jfuelItems, dumpsItems]
      have hm : max (jfuel x) (jfuelItems xs + 1) ≤
          (dumps x).length + (dumpsItems xs).length + 1 :=
        max_le (by omega) (by omega)
      simp [List.length_append]
      omega

theorem jfuelMembers_le_dumps : ∀ kvs : List (List Char × JVal),
    jfuelMembers kvs ≤ (dumpsMembers kvs).length + 1
  | [] => by rw [jfuelMembers, dumpsMembers]; simp
  | kv :: kvs => by
      have h1 := jfuel_le_dumps kv.2
      have h2 := jfuelMembers_le_dumps kvs
      have h3 : 1 ≤ (dumps kv.2).length := List.length_pos.mpr (dumps_ne_nil kv.2)
      rw [jfuelMembers, dumpsMembers]
      have hm : max (jfuel kv.2) (jfuelMembers kvs + 1) ≤
          (dumps kv.2).length + (dumpsMembers kvs).length + 1 :=
        max_le (by omega) (by omega)
      simp [List.length_append]
      omega
end

/-- Model of json.loads on a whole document: parse one value after optional
whitespace, then require only whitespace up to the end of input. -/
def loads (s : List Char) : Option JVal :=
  match parseVal (s.length + 1) s with
  | some (v, rest) => if skipWs rest = [] then some v else Option.none
  | Option.none => Option.none

/-- loads inverts dumps. -/
theorem loads_dumps (m : JVal) : loads (dumps m) = some m := by
  have hfu : jfuel m ≤ (dumps m).length + 1 :=
    Nat.le_trans (jfuel_le_dumps m) (Nat.le_succ _)
  have hp := parse_dumps m ((dumps m).length + 1) [] hfu
    (by rw [headNotDigit]; intro c hc; simp at hc)
  rw [List.append_nil] at hp
  rw [loads, hp]
  rfl

/-- UTF-8 encoding of one scalar value (Python str.encode on one character). -/
def utf8Bytes (c : Char) : List Nat :=
  let n := c.toNat
  if n < 128 then [n]
  else if n < 2048 then [192 + n / 64, 128 + n % 64]
  else if n < 65536 then [224 + n / 4096, 128 + n / 64 % 64, 128 + n % 64]
  else [240 + n / 262144, 128 + n / 4096 % 64, 128 + n / 64 % 64, 128 + n % 64]

/-- UTF-8 encoding of a string (bytes as naturals below 256). -/
def encodeUtf8 (s : List Char) : List Nat :=
  s.flatMap utf8Bytes

/-- Number of continuation bytes announced by a UTF-8 lead byte. -/
def utf8More (b : Nat) : Nat :=
  if b ≤ 223 then 1 else if b ≤ 239 then 2 else 3

/-- Code point of one non-ASCII UTF-8 sequence starting with lead byte b,
rejecting malformed sequences, overlong forms, surrogates and out-of-range
values (Python strict bytes.decode). -/
def utf8Cp (b : Nat) (rest : List Nat) : Option Nat :=
  if 194 ≤ b ∧ b ≤ 223 then
    match rest with
    | b2 :: _ =>
      if 128 ≤ b2 ∧ b2 ≤ 191 then some ((b - 192) * 64 + (b2 - 128)) else Option.none
    | [] => Option.none
  else if 224 ≤ b ∧ b ≤ 239 then
    match rest with
    | b2 :: b3 :: _ =>
      if (128 ≤ b2 ∧ b2 ≤ 191) ∧ (128 ≤ b3 ∧ b3 ≤ 191) ∧
          2048 ≤ (b - 224) * 4096 + (b2 - 128) * 64 + (b3 - 128) ∧
          ¬(55296 ≤ (b - 224) * 4096 + (b2 - 128) * 64 + (b3 - 128) ∧
            (b - 224) * 4096 + (b2 - 128) * 64 + (b3 - 128) ≤ 57343) then
        some ((b - 224) * 4096 + (b2 - 128) * 64 + (b3 - 128))
      else Option.none
    | _ => Option.none
  else if 240 ≤ b ∧ b ≤ 244 then
    match rest with
    | b2 :: b3 :: b4 :: _ =>
      if (128 ≤ b2 ∧ b2 ≤ 191) ∧ (128 ≤ b3 ∧ b3 ≤ 191) ∧ (128 ≤ b4 ∧ b4 ≤ 191) ∧
          65536 ≤ (b - 240) * 262144 + (b2 - 128) * 4096 + (b3 - 128) * 64 + (b4 - 128) ∧
          (b - 240) * 262144 + (b2 - 128) * 4096 + (b3 - 128) * 64 + (b4 - 128) ≤ 1114111 then
        some ((b - 240) * 262144 + (b2 - 128) * 4096 + (b3 - 128) * 64 + (b4 - 128))
      else Option.none
    | _ => Option.none
  else Option.none

/-- Strict UTF-8 decoding (Python bytes.decode): ASCII bytes decode to
themselves, other lead bytes via utf8Cp, consuming utf8More continuation
bytes. -/
def decodeUtf8 : List Nat → Option (List Char)
  | [] => some []
  | b :: rest =>
    if b < 128 then
      match decodeUtf8 rest with
      | some cs => some (Char.ofNat b :: cs)
      | Option.none => Option.none
    else
      match utf8Cp b rest with
      | some n =>
        match decodeUtf8 (rest.drop (utf8More b)) with
        | some cs => some (Char.ofNat n :: cs)
        | Option.none => Option.none
      | Option.none => Option.none
termination_by l => l.length
decreasing_by
  all_goals simp [List.length_drop]
  omega

/-- On an all-ASCII string, UTF-8 encoding is the code-point list. -/
theorem encodeUtf8_ascii (s : List Char) (h : ∀ c ∈ s, c.toNat < 128) :
    encodeUtf8 s = s.map Char.toNat := by
  induction s with
  | nil => rfl
  | cons c cs ih =>
    have hc : c.toNat < 128 := h c (List.mem_cons_self c cs)
    rw [encodeUtf8, List.flatMap_cons, List.map_cons]
    rw [encodeUtf8] at ih
    rw [ih (fun x hx => h x (List.mem_cons_of_mem c hx))]
    simp only [utf8Bytes]
    rw [if_pos hc]
    rfl

/-- Decoding all-ASCII bytes restores each byte as a character. -/
theorem decodeUtf8_ascii (l : List Nat) (h : ∀ b ∈ l, b < 128) :
    decodeUtf8 l = some (l.map Char.ofNat) := by
  induction l with
  | nil => rw [decodeUtf8.eq_def]; rfl
  | cons b bs ih =>
    have hb : b < 128 := h b (List.mem_cons_self b bs)
    rw [decodeUtf8.eq_def]
    simp only []
    rw [if_pos hb, ih (fun x hx => h x (List.mem_cons_of_mem b hx))]
    rfl

/-- Decoding inverts encoding on ASCII strings. -/
theorem decode_encode_ascii (s : List Char) (h : ∀ c ∈ s, c.toNat < 128) :
    decodeUtf8 (encodeUtf8 s) = some s := by
  rw [encodeUtf8_ascii s h, decodeUtf8_ascii _ (by simpa using h)]
  congr 1
  rw [List.map_map]
  exact List.map_congr_left (fun c _ => Char.ofNat_toNat c) |>.trans (List.map_id _)

/-- The header+body character sequence _send_message builds: an f-string
Content-Length header (the length is the character count of the serialized
body) followed by the body. -/
def headerChars (n : Nat) : List Char :=
  "Content-Length: ".data ++ natRepr n ++ "\r\n\r\n".data

/-- The exact byte sequence _send_message writes for one message:
(header + content).encode("utf-8"). -/
def sendMessageBytes (m : JVal) : List Nat :=
  encodeUtf8 (headerChars (dumps m).length ++ dumps m)

/-- Lowest index of the header terminator bytes 13 10 13 10 (bytes.find). -/
def findHeaderEnd : List Nat → Option Nat
  | [] => Option.none
  | b :: rest =>
    if List.isPrefixOf [13, 10, 13, 10] (b :: rest) then some 0
    else (findHeaderEnd rest).map (· + 1)

/-- String split on the two-character separator CR LF (str.split). -/
def splitCrlf : List Char → List (List Char)
  | [] => [[]]
  | c :: rest =>
    if c = '\r' ∧ rest.take 1 = ['\n'] then [] :: splitCrlf (rest.drop 1)
    else
      match splitCrlf rest with
      | l :: ls => (c :: l) :: ls
      | [] => [[c]]
termination_by l => l.length
decreasing_by
  all_goals simp [List.length_drop]
  omega

/-- Split at the first colon (line.split(":", 1) restricted to the two
pieces; a line with no colon leaves the second piece empty, and the one
caller only reads the second piece after checking the line starts with
Content-Length:). -/
def splitColonOnce : List Char → List Char × List Char
  | [] => ([], [])
  | c :: rest =>
    if c = ':' then ([], rest)
    else ((c :: (splitColonOnce rest).1), (splitColonOnce rest).2)

/-- str.strip on a character list. -/
def pyStripChars (l : List Char) : List Char :=
  ((l.dropWhile pyIsSpace).reverse.dropWhile pyIsSpace).reverse

/-- int() on a stripped decimal string: defined on nonempty digit runs,
anything else raises (modeled as none; the caller's exception path and its
content_length = 0 path coincide: both skip past the header terminator). -/
def pyInt (l : List Char) : Option Nat :=
  if l ≠ [] ∧ l.all isDigitChar then some (digitsToNat l) else Option.none

/-- The header-scanning loop of _read_messages: the first line starting
with Content-Length: sets content_length from the text after the colon;
content_length stays 0 when no line matches or int() fails. -/
def clFromLines : List (List Char) → Nat
  | [] => 0
  | line :: rest =>
    if List.isPrefixOf "Content-Length:".data line then
      match pyInt (pyStripChars (splitColonOnce line).2) with
      | some n => n
      | Option.none => 0
    else clFromLines rest

/-- Content-Length extracted from the raw header bytes: decode as UTF-8,
split into lines, scan for the Content-Length line; 0 when decoding fails
(the exception path also skips past the terminator). -/
def parseContentLength (headerBytes : List Nat) : Nat :=
  match decodeUtf8 headerBytes with
  | Option.none => 0
  | some header => clFromLines (splitCrlf header)

/-- A found terminator index leaves at least the four terminator bytes in
the buffer. -/
theorem findHeaderEnd_le : ∀ (b : List Nat) (he : Nat),
    findHeaderEnd b = some he → he + 4 ≤ b.length
  | [], he => by rw [findHeaderEnd]; intro h; cases h
  | x :: rest, he => by
      rw [findHeaderEnd]
      by_cases hp : List.isPrefixOf [13, 10, 13, 10] (x :: rest) = true
      · rw [if_pos hp]
        intro h
        cases h
        have := List.IsPrefix.length_le ( List.isPrefixOf_iff_prefix.mp hp)
        simpa using this
      · rw [if_neg hp]
        intro h
        cases hr : findHeaderEnd rest with
        | none => rw [hr] at h; cases h
        | some he2 =>
          rw [hr] at h
          have h2 := findHeaderEnd_le rest he2 hr
          simp at h
          simp [← h]
          omega

/-- A 4-byte prefix test only looks at the first four elements. -/
theorem isPrefixOf4_append (p1 p2 p3 p4 : Nat) :
    ∀ (l e : List Nat), 4 ≤ l.length →
    List.isPrefixOf [p1, p2, p3, p4] (l ++ e) = List.isPrefixOf [p1, p2, p3, p4] l
  | a :: b :: c :: d :: t, e, _ => by simp [List.isPrefixOf]
  | [], _, h => by simp at h
  | [a], _, h => by simp at h
  | [a, b], _, h => by simp at h
  | [a, b, c], _, h => by simp at h

/-- The position of a found terminator is unchanged by appending bytes. -/
theorem findHeaderEnd_append : ∀ (b d : List Nat) (he : Nat),
    findHeaderEnd b = some he → findHeaderEnd (b ++ d) = some he
  | [], d, he => by rw [findHeaderEnd]; intro h; cases h
  | x :: rest, d, he => by
      rw [findHeaderEnd]
      by_cases hp : List.isPrefixOf [13, 10, 13, 10] (x :: rest) = true
      · rw [if_pos hp]
        intro h
        cases h
        have hpre : [13, 10, 13, 10] <+: (x :: rest) := List.isPrefixOf_iff_prefix.mp hp
        have hlen : 4 ≤ (x :: rest).length := by simpa using List.IsPrefix.length_le hpre
        rw [List.cons_append, findHeaderEnd,
            show x :: (rest ++ d) = (x :: rest) ++ d from rfl,
            isPrefixOf4_append 13 10 13 10 (x :: rest) d hlen]
        rw [if_pos hp]
      · rw [if_neg hp]
        intro h
        cases hr : findHeaderEnd rest with
        | none => rw [hr] at h; cases h
        | some he2 =>
          rw [hr] at h
          simp at h
          have hlen : 4 ≤ (x :: rest).length := by
            have := findHeaderEnd_le rest he2 hr
            simp
            omega
          rw [List.cons_append, findHeaderEnd,
              show x :: (rest ++ d) = (x :: rest) ++ d from rfl,
              isPrefixOf4_append 13 10 13 10 (x :: rest) d hlen,
              if_neg hp, findHeaderEnd_append rest d he2 hr]
          simp [h]

/-- The terminator is found exactly where it stands when no earlier byte
can start it. -/
theorem findHeaderEnd_no13 : ∀ (pre : List Nat), (∀ b ∈ pre, b ≠ 13) →
    ∀ (rest : List Nat), findHeaderEnd (pre ++ 13 :: 10 :: 13 :: 10 :: rest) = some pre.length
  | [], _, rest => by
      rw [List.nil_append, findHeaderEnd, if_pos (by simp [List.isPrefixOf])]
      rfl
  | x :: pre, h, rest => by
      have hx : x ≠ 13 := h x (List.mem_cons_self x pre)
      rw [List.cons_append, findHeaderEnd,
          if_neg (by
            simp [List.isPrefixOf]
            intro he
            exact absurd he.symm hx),
          findHeaderEnd_no13 pre (fun b hb => h b (List.mem_cons_of_mem x hb)) rest]
      rfl

/-- Splitting on CR LF is trivial on a line with no CR. -/
theorem splitCrlf_no_cr : ∀ l : List Char, (∀ c ∈ l, c ≠ '\r') → splitCrlf l = [l]
  | [], _ => by rw [splitCrlf]
  | c :: rest, h => by
      have hc : c ≠ '\r' := h c (List.mem_cons_self c rest)
      rw [splitCrlf, if_neg (fun hp => hc hp.1),
          splitCrlf_no_cr rest (fun x hx => h x (List.mem_cons_of_mem c hx))]

/-- Splitting the Content-Length header line at its first colon. -/
theorem splitColonOnce_header (t : List Char) :
    splitColonOnce ("Content-Length: ".data ++ t) = ("Content-Length".data, ' ' :: t) := by
  rfl

/-- Stripping the single leading space off the header value. -/
theorem pyStripChars_space_digits (l : List Char) (hne : l ≠ [])
    (h : ∀ c ∈ l, 48 ≤ c.toNat ∧ c.toNat ≤ 57) : pyStripChars (' ' :: l) = l := by
  have hds : ∀ c ∈ l, pyIsSpace c = false := by
    intro c hc
    have hb := h c hc
    have e1 : c ≠ ' ' :=
      char_ne_of_toNat_ne (by have e : (' ' : Char).toNat = 32 := rfl; omega)
    have e2 : c ≠ '\t' :=
      char_ne_of_toNat_ne (by have e : ('\t' : Char).toNat = 9 := rfl; omega)
    have e3 : c ≠ '\n' :=
      char_ne_of_toNat_ne (by have e : ('\n' : Char).toNat = 10 := rfl; omega)
    have e4 : c ≠ '\r' :=
      char_ne_of_toNat_ne (by have e : ('\r' : Char).toNat = 13 := rfl; omega)
    rw [pyIsSpace]
    simp [e1, e2, e3, e4]
    omega
  rw [pyStripChars, List.dropWhile_cons_of_pos (by rw [pyIsSpace]; simp)]
  cases l with
  | nil => exact absurd rfl hne
  | cons c cs =>
    rw [List.dropWhile_cons_of_neg (by simp [hds c (List.mem_cons_self c cs)])]
    cases hrev : (c :: cs).reverse with
    | nil => exact absurd hrev (by simp)
    | cons d ds =>
      have hd : d ∈ c :: cs := by
        rw [← List.mem_reverse, hrev]
        exact List.mem_cons_self d ds
      rw [List.dropWhile_cons_of_neg (by simp [hds d hd]), ← hrev,
          List.reverse_reverse]

/-- int() on a digit run gives its value. -/
theorem pyInt_digits (l : List Char) (hne : l ≠ [])
    (h : ∀ c ∈ l, 48 ≤ c.toNat ∧ c.toNat ≤ 57) : pyInt l = some (digitsToNat l) := by
  rw [pyInt, if_pos]
  refine ⟨hne, ?_⟩
  rw [List.all_eq_true]
  intro c hc
  rw [isDigitChar]
  simpa using h c hc

/-- The scanning loop reads N back off the header line. -/
theorem clFromLines_header (N : Nat) :
    clFromLines ["Content-Length: ".data ++ natRepr N] = N := by
  obtain ⟨c, cs, hc, _, _⟩ := natRepr_head N
  have hne : natRepr N ≠ [] := by rw [hc]; simp
  have hpre : List.isPrefixOf "Content-Length:".data
      ("Content-Length: ".data ++ natRepr N) = true :=
    List.isPrefixOf_iff_prefix.mpr ⟨' ' :: natRepr N, rfl⟩
  rw [clFromLines, if_pos hpre,
      splitColonOnce_header, pyStripChars_space_digits _ hne (natRepr_digits N),
      pyInt_digits _ hne (natRepr_digits N), digitsToNat_natRepr]

/-- Characters of the header line are ASCII. -/
theorem headerLine_ascii (N : Nat) :
    ∀ c ∈ "Content-Length: ".data ++ natRepr N, c.toNat < 128 := by
  intro c hc
  have hlit : ∀ x ∈ "Content-Length: ".data, x.toNat < 128 := by decide
  rcases List.mem_append.mp hc with h | h
  · exact hlit c h
  · have := natRepr_digits N c h
    omega

/-- Content-Length parsed back from the encoded header line. -/
theorem parseContentLength_header (N : Nat) :
    parseContentLength (encodeUtf8 ("Content-Length: ".data ++ natRepr N)) = N := by
  have hascii := headerLine_ascii N
  have hnocr : ∀ c ∈ "Content-Length: ".data ++ natRepr N, c ≠ '\r' := by
    intro c hc
    have hlit : ∀ x ∈ "Content-Length: ".data, x ≠ '\r' := by decide
    rcases List.mem_append.mp hc with h | h
    · exact hlit c h
    · have := natRepr_digits N c h
      exact char_ne_of_toNat_ne (by have e : ('\r' : Char).toNat = 13 := rfl; omega)
  rw [parseContentLength, decode_encode_ascii _ hascii]
  show clFromLines (splitCrlf ("Content-Length: ".data ++ natRepr N)) = N
  rw [splitCrlf_no_cr _ hnocr, clFromLines_header]

/-- The inner buffer-draining loop of _read_messages: while the terminator
is present, read the Content-Length, skip past the terminator when it is 0
(also the path of a header that fails to decode or an int() error), emit
the decoded message when the body is complete (an undecodable body skips
only the header, an unparsable body skips header and body), and stop with
the unconsumed bytes when the body is still incomplete. -/
def drainBuffer (buffer : List Nat) : List JVal × List Nat :=
  match hfe : findHeaderEnd buffer with
  | Option.none => ([], buffer)
  | some he =>
    if parseContentLength (buffer.take he) = 0 then
      drainBuffer (buffer.drop (he + 4))
    else if he + 4 + parseContentLength (buffer.take he) ≤ buffer.length then
      match decodeUtf8 ((buffer.drop (he + 4)).take (parseContentLength (buffer.take he))) with
      | some content =>
        match loads content with
        | some v =>
          (v :: (drainBuffer (buffer.drop (he + 4 + parseContentLength (buffer.take he)))).1,
           (drainBuffer (buffer.drop (he + 4 + parseContentLength (buffer.take he)))).2)
        | Option.none =>
          drainBuffer (buffer.drop (he + 4 + parseContentLength (buffer.take he)))
      | Option.none => drainBuffer (buffer.drop (he + 4))
    else ([], buffer)
termination_by buffer.length
decreasing_by
  all_goals
    have hle := findHeaderEnd_le buffer he hfe
    simp [List.length_drop]
    omega

/-- The outer read loop of _read_messages over a sequence of reads: each
nonempty chunk is appended to the buffer and the buffer drained; an empty
read stops the loop. -/
def readLoopChunks : List (List Nat) → List Nat → List JVal
  | [], _ => []
  | c :: cs, buffer =>
    if c.isEmpty then []
    else
      (drainBuffer (buffer ++ c)).1 ++ readLoopChunks cs (drainBuffer (buffer ++ c)).2

/-- Messages reconstructed by _read_messages from a sequence of reads. -/
def readLoop (chunks : List (List Nat)) : List JVal :=
  readLoopChunks chunks []

/-- drainBuffer on a buffer with no terminator. -/
theorem drainBuffer_none (buffer : List Nat) (h : findHeaderEnd buffer = Option.none) :
    drainBuffer buffer = ([], buffer) := by
  rw [drainBuffer.eq_def]
  split
  · rfl
  · rename_i he heq
    rw [h] at heq
    cases heq

/-- drainBuffer on a buffer whose terminator sits at index he. -/
theorem drainBuffer_some (buffer : List Nat) (he : Nat) (h : findHeaderEnd buffer = some he) :
    drainBuffer buffer =
      (if parseContentLength (buffer.take he) = 0 then
        drainBuffer (buffer.drop (he + 4))
      else if he + 4 + parseContentLength (buffer.take he) ≤ buffer.length then
        match decodeUtf8 ((buffer.drop (he + 4)).take (parseContentLength (buffer.take he))) with
        | some content =>
          match loads content with
          | some v =>
            (v :: (drainBuffer (buffer.drop (he + 4 + parseContentLength (buffer.take he)))).1,
             (drainBuffer (buffer.drop (he + 4 + parseContentLength (buffer.take he)))).2)
          | Option.none =>
            drainBuffer (buffer.drop (he + 4 + parseContentLength (buffer.take he)))
        | Option.none => drainBuffer (buffer.drop (he + 4))
      else ([], buffer)) := by
  rw [drainBuffer.eq_def]
  split
  · rename_i heq
    rw [h] at heq
    cases heq
  · rename_i he2 heq
    rw [h] at heq
    cases heq
    rfl

/-- A fully framed message drains to exactly that message with an empty
leftover buffer. -/
theorem drainBuffer_sendMessage (m : JVal) :
    drainBuffer (sendMessageBytes m) = ([m], []) := by
  have hba : ∀ c ∈ dumps m, c.toNat < 128 := fun c hc => dumps_ascii m c hc
  have hF : sendMessageBytes m =
      encodeUtf8 ("Content-Length: ".data ++ natRepr (dumps m).length) ++
        (13 :: 10 :: 13 :: 10 :: encodeUtf8 (dumps m)) := by
    rw [sendMessageBytes, headerChars]
    simp only [encodeUtf8, List.flatMap_append]
    rw [show ['\r', '\n', '\r', '\n'].flatMap utf8Bytes = [13, 10, 13, 10] from rfl]
    simp
  have hno13 : ∀ b ∈ encodeUtf8 ("Content-Length: ".data ++ natRepr (dumps m).length),
      b ≠ 13 := by
    rw [encodeUtf8_ascii _ (headerLine_ascii _)]
    intro b hb
    obtain ⟨c, hc, hco⟩ := List.mem_map.mp hb
    have hlit : ∀ x ∈ "Content-Length: ".data, x.toNat ≠ 13 := by decide
    rcases List.mem_append.mp hc with h | h
    · rw [← hco]
      exact hlit c h
    · have := natRepr_digits _ c h
      omega
  have hfind : findHeaderEnd (sendMessageBytes m) =
      some (encodeUtf8 ("Content-Length: ".data ++ natRepr (dumps m).length)).length := by
    rw [hF]
    exact findHeaderEnd_no13 _ hno13 _
  have hlen_body : (encodeUtf8 (dumps m)).length = (dumps m).length := by
    rw [encodeUtf8_ascii _ hba]
    simp
  have htake : (sendMessageBytes m).take
      (encodeUtf8 ("Content-Length: ".data ++ natRepr (dumps m).length)).length =
      encodeUtf8 ("Content-Length: ".data ++ natRepr (dumps m).length) := by
    rw [hF, List.take_left]
  have hterm : encodeUtf8 ("Content-Length: ".data ++ natRepr (dumps m).length) ++
      (13 :: 10 :: 13 :: 10 :: encodeUtf8 (dumps m)) =
      (encodeUtf8 ("Content-Length: ".data ++ natRepr (dumps m).length) ++ [13, 10, 13, 10]) ++
        encodeUtf8 (dumps m) := by
    simp
  have hlen4 : (encodeUtf8 ("Content-Length: ".data ++ natRepr (dumps m).length) ++
      [13, 10, 13, 10]).length =
      (encodeUtf8 ("Content-Length: ".data ++ natRepr (dumps m).length)).length + 4 := by
    simp
  have hdrop : (sendMessageBytes m).drop
      ((encodeUtf8 ("Content-Length: ".data ++ natRepr (dumps m).length)).length + 4) =
      encodeUtf8 (dumps m) := by
    rw [hF, hterm, ← hlen4, List.drop_left]
  have hNne : parseContentLength ((sendMessageBytes m).take
      (encodeUtf8 ("Content-Length: ".data ++ natRepr (dumps m).length)).length) =
      (dumps m).length := by
    rw [htake, parseContentLength_header]
  have hcl0 : (dumps m).length ≠ 0 := by
    have := List.length_pos.mpr (dumps_ne_nil m)
    omega
  have hFlen : (sendMessageBytes m).length =
      (encodeUtf8 ("Content-Length: ".data ++ natRepr (dumps m).length)).length + 4 +
        (dumps m).length := by
    rw [hF]
    simp [hlen_body]
    omega
  have hcontent : (encodeUtf8 (dumps m)).take (dumps m).length = encodeUtf8 (dumps m) := by
    rw [← hlen_body, List.take_length]
  rw [drainBuffer_some _ _ hfind, hNne, if_neg hcl0, if_pos (by omega), hdrop, hcontent,
      decode_encode_ascii _ hba]
  simp only [loads_dumps]
  have hrest : (sendMessageBytes m).drop
      ((encodeUtf8 ("Content-Length: ".data ++ natRepr (dumps m).length)).length + 4 +
        (dumps m).length) = [] := by
    apply List.drop_eq_nil_of_le
    omega
  rw [hrest, drainBuffer_none [] (by rw [findHeaderEnd])]

/-- Draining an extended buffer equals draining the first part and then
draining its leftover with the extension appended: arrival of the same
bytes in separate reads loses nothing. -/
theorem drainBuffer_append : ∀ (b d : List Nat),
    drainBuffer (b ++ d) =
      ((drainBuffer b).1 ++ (drainBuffer ((drainBuffer b).2 ++ d)).1,
       (drainBuffer ((drainBuffer b).2 ++ d)).2)
  | b, d => by
    cases hfe : findHeaderEnd b with
    | none =>
      rw [drainBuffer_none b hfe]
      simp
    | some he =>
      have hle := findHeaderEnd_le b he hfe
      have hfed : findHeaderEnd (b ++ d) = some he := findHeaderEnd_append b d he hfe
      have htake : (b ++ d).take he = b.take he := by
        rw [List.take_append_eq_append_take, show he - b.length = 0 from by omega]
        simp
      have hdrop4 : (b ++ d).drop (he + 4) = b.drop (he + 4) ++ d := by
        rw [List.drop_append_eq_append_drop, show he + 4 - b.length = 0 from by omega]
        simp
      by_cases hcl : parseContentLength (b.take he) = 0
      · rw [drainBuffer_some (b ++ d) he hfed, htake, if_pos hcl, hdrop4,
            drainBuffer_append (b.drop (he + 4)) d,
            drainBuffer_some b he hfe, if_pos hcl]
      · by_cases hcomp : he + 4 + parseContentLength (b.take he) ≤ b.length
        · have hcompd : he + 4 + parseContentLength (b.take he) ≤ (b ++ d).length := by
            simp [List.length_append]
            omega
          have hcont : ((b ++ d).drop (he + 4)).take (parseContentLength (b.take he)) =
              (b.drop (he + 4)).take (parseContentLength (b.take he)) := by
            rw [hdrop4, List.take_append_eq_append_take,
                show parseContentLength (b.take he) - (b.drop (he + 4)).length = 0 from by
                  simp [List.length_drop]
                  omega]
            simp
          have hdropFull : (b ++ d).drop (he + 4 + parseContentLength (b.take he)) =
              b.drop (he + 4 + parseContentLength (b.take he)) ++ d := by
            rw [List.drop_append_eq_append_drop,
                show he + 4 + parseContentLength (b.take he) - b.length = 0 from by omega]
            simp
          rw [drainBuffer_some (b ++ d) he hfed, htake, if_neg hcl, if_pos hcompd, hcont]
          cases hdec : decodeUtf8 ((b.drop (he + 4)).take (parseContentLength (b.take he))) with
          | none =>
            simp only []
            rw [hdrop4, drainBuffer_append (b.drop (he + 4)) d,
                drainBuffer_some b he hfe, if_neg hcl, if_pos hcomp, hdec]
          | some content =>
            simp only []
            cases hl : loads content with
            | none =>
              simp only []
              rw [hdropFull,
                  drainBuffer_append (b.drop (he + 4 + parseContentLength (b.take he))) d,
                  drainBuffer_some b he hfe, if_neg hcl, if_pos hcomp, hdec]
              simp only []
              rw [hl]
            | some v =>
              simp only []
              rw [hdropFull,
                  drainBuffer_append (b.drop (he + 4 + parseContentLength (b.take he))) d,
                  drainBuffer_some b he hfe, if_neg hcl, if_pos hcomp, hdec]
              simp only []
              rw [hl]
              simp
        · rw [drainBuffer_some b he hfe, if_neg hcl, if_neg hcomp]
          simp
termination_by b d => b.length
decreasing_by
  all_goals simp [List.length_drop]
  all_goals omega

/-- C8: for every JSON-RPC message m, _send_message frames the UTF-8 JSON
body behind a Content-Length header whose count is the exact byte length of
the encoded body, and _read_messages fed those bytes — in one read, or split
into two reads at any byte boundary after the first byte — reconstructs
exactly the one message m. -/
theorem C8_framing_roundtrip (m : JVal) (i : Nat) :
    sendMessageBytes m =
      encodeUtf8 ("Content-Length: ".data ++ natRepr (encodeUtf8 (dumps m)).length ++
        "\r\n\r\n".data ++ dumps m) ∧
    readLoop [(sendMessageBytes m).take (i + 1), (sendMessageBytes m).drop (i + 1)] = [m] := by
  have hba : ∀ c ∈ dumps m, c.toNat < 128 := fun c hc => dumps_ascii m c hc
  have hlen_body : (encodeUtf8 (dumps m)).length = (dumps m).length := by
    rw [encodeUtf8_ascii _ hba]
    simp
  constructor
  · rw [sendMessageBytes, headerChars, hlen_body]
  · have hFne : sendMessageBytes m ≠ [] := by
      intro h0
      have hd := drainBuffer_sendMessage m
      rw [h0, drainBuffer_none [] (by rw [findHeaderEnd])] at hd
      simp at hd
    rw [readLoop, readLoopChunks,
        if_neg (by simp [List.isEmpty_iff, List.take_eq_nil_iff, hFne]),
        List.nil_append]
    by_cases hb : (sendMessageBytes m).drop (i + 1) = []
    · have hlen_le : (sendMessageBytes m).length ≤ i + 1 := by
        simpa [List.drop_eq_nil_iff_le] using hb
      rw [List.take_of_length_le hlen_le, hb, drainBuffer_sendMessage m]
      simp [readLoopChunks]
    · rw [readLoopChunks, if_neg (by simp [List.isEmpty_iff, hb]), readLoopChunks,
          List.append_nil]
      have hsplit := drainBuffer_append ((sendMessageBytes m).take (i + 1))
        ((sendMessageBytes m).drop (i + 1))
      rw [List.take_append_drop, drainBuffer_sendMessage m] at hsplit
      have hfst := congrArg Prod.fst hsplit
      simp only [] at hfst
      exact hfst.symm
